import Mathlib

/-!
Verification development for the photon-stream decoding core of the
corrosiff reader (a BigTIFF-derived container of photon-resolved
fluorescence microscopy data).

The definitions below are a shallow embedding of the Rust sources:

* photon-word field extraction follows `src/data/image/dimensions.rs`;
* the raw / compressed intensity kernels follow
  `src/data/image/intensity/siff/unregistered.rs` and `registered.rs`;
* the histogram kernels follow `src/data/image/flim/histogram.rs`;
* the empirical-lifetime kernels follow
  `src/data/image/flim/empirical_lifetime/unregistered.rs` and
  `registered.rs`;
* reader-level request handling follows `src/siffreader.rs`.

Machine integers are modelled as `Nat` with an explicit `% 2 ^ 16`
wherever a `u16` accumulator can wrap.  The `u64` accumulators cannot
wrap on any input a strip can describe, so they are modelled as plain
`Nat`.  `f64` accumulation of `u16` tau values is exact well past any
reachable magnitude, so float accumulators are idealized as exact
rationals; `none : Option Rat` models the non-finite value produced by
a division by zero.

The module `data::image::dimensions::macros` (the three-argument
`photon_to_y!` / `photon_to_x!` / `photon_to_tau_USIZE!` macros) and the
`roll` / `roll_inplace` helpers are imported by the kernels but absent
from the source tree, as are the thin per-frame mask dispatchers
re-exported by `data/image.rs`.  Those definitions are modelled from the
spec and are marked as such in their doc comments.
-/

namespace Corrosiff

/-! ## Photon words (`src/data/image/dimensions.rs`) -/

/-- Lowest 32 bits of a photon word are the tau coordinate
(`SIFF_TAU_MASK = (1 << 32) - 1`). -/
def SIFF_TAU_MASK : ℕ := 2 ^ 32 - 1

/-- Highest 16 bits of a photon word are the y coordinate
(`SIFF_YMASK = ((1<<63) | ((1<<63)-1)) & !((1<<48)-1)`, numerically
`0xFFFF000000000000`). -/
def SIFF_YMASK : ℕ := 2 ^ 64 - 2 ^ 48

/-- Bits 32..48 of a photon word are the x coordinate
(`SIFF_XMASK = ((1<<48)-1) & !((1<<32)-1)`, numerically
`0x0000FFFF00000000`). -/
def SIFF_XMASK : ℕ := 2 ^ 48 - 2 ^ 32

/-- Base y extraction, `(photon & SIFF_YMASK) >> 48`. -/
def photon_to_y_base (p : ℕ) : ℕ := (Nat.land p SIFF_YMASK) >>> 48

/-- Base x extraction, `(photon & SIFF_XMASK) >> 32`. -/
def photon_to_x_base (p : ℕ) : ℕ := (Nat.land p SIFF_XMASK) >>> 32

/-- Tau extraction, `photon & SIFF_TAU_MASK`. -/
def photon_to_tau (p : ℕ) : ℕ := Nat.land p SIFF_TAU_MASK

/-- Modelled from the spec: the three-argument registration forms of the
`photon_to_y!` / `photon_to_x!` macros live in the missing module
`data::image::dimensions::macros`; per spec section 3 a registration
shift is applied as a cyclic coordinate map,
`output coordinate = ((raw + shift) mod dim)`. -/
def regCoord (raw : ℕ) (shift : ℤ) (dim : ℕ) : ℕ :=
  (((raw : ℤ) + shift) % (dim : ℤ)).toNat

/-- Modelled from the spec: `roll` / `roll_inplace` from the missing
`data::image::dimensions` items.  A cyclic roll of a 2-D array by
`(shift.1, shift.2)`: the output at `((y + dy) mod h, (x + dx) mod w)`
is the input at `(y, x)`, i.e. the output at `(y, x)` is the input at
`((y - dy) mod h, (x - dx) mod w)`. -/
def roll {α : Type} (img : ℕ → ℕ → α) (shift : ℤ × ℤ) (ydim xdim : ℕ) :
    ℕ → ℕ → α :=
  fun y x => img (regCoord y (-shift.1) ydim) (regCoord x (-shift.2) xdim)

/-! ## Raw and compressed intensity kernels
(`src/data/image/intensity/siff/unregistered.rs`, `registered.rs`).

A raw strip is modelled as its list of decoded 64-bit photon words; a
compressed strip as its intensity slab (a row-major list of `u16`
pixel counts) plus its arrival stream (a list of `u16` tau values). -/

/-- One `u16` `+= 1` into a 2-D accumulator viewed as a function. -/
def inc16 (a : ℕ → ℕ → ℕ) (y x : ℕ) : ℕ → ℕ → ℕ :=
  fun y2 x2 => if y2 = y ∧ x2 = x then (a y x + 1) % 65536 else a y2 x2

/-- Kernel `load_array_raw_siff`: for each photon word, increment the
`u16` accumulator at the (unshifted) registered coordinates. -/
def load_array_raw_siff (photons : List ℕ) (ydim xdim : ℕ)
    (array : ℕ → ℕ → ℕ) : ℕ → ℕ → ℕ :=
  photons.foldl
    (fun a p =>
      inc16 a (regCoord (photon_to_y_base p) 0 ydim)
              (regCoord (photon_to_x_base p) 0 xdim)) array

/-- Kernel `load_array_raw_siff_registered`: as `load_array_raw_siff`
but the registration shift is folded into the coordinate macros. -/
def load_array_raw_siff_registered (photons : List ℕ) (ydim xdim : ℕ)
    (registration : ℤ × ℤ) (array : ℕ → ℕ → ℕ) : ℕ → ℕ → ℕ :=
  photons.foldl
    (fun a p =>
      inc16 a (regCoord (photon_to_y_base p) registration.1 ydim)
              (regCoord (photon_to_x_base p) registration.2 xdim)) array

/-- Kernel `sum_mask_raw_siff`: `frame_sum += mask[y, x]` per photon
(the `u64` accumulator starts at the zero supplied by the caller). -/
def sum_mask_raw_siff (mask : ℕ → ℕ → Bool) (photons : List ℕ)
    (ydim xdim : ℕ) : ℕ :=
  photons.foldl
    (fun s p =>
      s + (if mask (regCoord (photon_to_y_base p) 0 ydim)
                   (regCoord (photon_to_x_base p) 0 xdim) then 1 else 0)) 0

/-- Kernel `sum_mask_raw_siff_registered`. -/
def sum_mask_raw_siff_registered (mask : ℕ → ℕ → Bool) (photons : List ℕ)
    (ydim xdim : ℕ) (registration : ℤ × ℤ) : ℕ :=
  photons.foldl
    (fun s p =>
      s + (if mask (regCoord (photon_to_y_base p) registration.1 ydim)
                   (regCoord (photon_to_x_base p) registration.2 xdim)
           then 1 else 0)) 0

/-- Kernel `load_array_compressed_siff`: the intensity slab (read by
seeking `h*w*2` bytes back from the strip) is copied row-major into the
output view.  Pixels beyond the slab keep the zero the driver wrote. -/
def load_array_compressed_siff (data : List ℕ) (ydim xdim : ℕ) :
    ℕ → ℕ → ℕ :=
  fun y x => data.getD (y * xdim + x) 0

/-- Kernel `load_array_compressed_siff_registered`: decode as if
unregistered, then roll the image by the registration shift. -/
def load_array_compressed_siff_registered (data : List ℕ) (ydim xdim : ℕ)
    (registration : ℤ × ℤ) : ℕ → ℕ → ℕ :=
  roll (load_array_compressed_siff data ydim xdim) registration ydim xdim

/-- Kernel `sum_mask_compressed_siff`: iterate the slab zipped with the
row-major mask, `frame_sum += data * mask`. -/
def sum_mask_compressed_siff (mask : ℕ → ℕ → Bool) (data : List ℕ)
    (ydim xdim : ℕ) : ℕ :=
  (List.range (ydim * xdim)).foldl
    (fun s k =>
      s + data.getD k 0 * (if mask (k / xdim) (k % xdim) then 1 else 0)) 0

/-- Kernel `sum_mask_compressed_siff_registered`: build the slab image,
roll it in place by the registration shift, then zip with the mask. -/
def sum_mask_compressed_siff_registered (mask : ℕ → ℕ → Bool)
    (data : List ℕ) (ydim xdim : ℕ) (registration : ℤ × ℤ) : ℕ :=
  (List.range (ydim * xdim)).foldl
    (fun s k =>
      s + (roll (load_array_compressed_siff data ydim xdim) registration
             ydim xdim) (k / xdim) (k % xdim)
          * (if mask (k / xdim) (k % xdim) then 1 else 0)) 0

/-! ## Histogram kernels (`src/data/image/flim/histogram.rs`) -/

/-- Kernel `_load_histogram_uncompressed`: for every photon word,
`hist[tau] += 1` guarded by `tau < histogram.len()` (out-of-range
photons are dropped). -/
def _load_histogram_uncompressed (photons : List ℕ) (nBins : ℕ)
    (hist : ℕ → ℕ) : ℕ → ℕ :=
  photons.foldl
    (fun hst p =>
      let tau := photon_to_tau p
      if tau < nBins then (fun t => if t = tau then hst tau + 1 else hst t)
      else hst) hist

/-- Kernel `_load_histogram_compressed`: every `u16` of the arrival
slab increments its bin, guarded by `x < histogram.len()`. -/
def _load_histogram_compressed (stream : List ℕ) (nBins : ℕ)
    (hist : ℕ → ℕ) : ℕ → ℕ :=
  stream.foldl
    (fun hst x =>
      if x < nBins then (fun t => if t = x then hst x + 1 else hst t)
      else hst) hist

/-! ## Empirical-lifetime kernels
(`src/data/image/flim/empirical_lifetime/unregistered.rs`,
`registered.rs`).  The `f64` lifetime accumulators are idealized as
exact rationals; the final unguarded pointwise division is modelled by
`fdiv`, whose `none` value stands for the non-finite `f64` produced by
a division by zero. -/

/-- Unguarded `f64` division by a pixel count: `none` models the
non-finite result when the count is zero. -/
def fdiv (q : ℚ) (n : ℕ) : Option ℚ :=
  if n = 0 then none else some (q / (n : ℚ))

/-- One step of the fused photon loop of
`_load_flim_intensity_empirical_uncompressed(_registered)`:
`lifetime_array[[y, x]] += tau` and `intensity_array[[y, x]] += 1`. -/
def flim_photon_step (registration : ℤ × ℤ) (ydim xdim : ℕ)
    (st : (ℕ → ℕ → ℚ) × (ℕ → ℕ → ℕ)) (p : ℕ) :
    (ℕ → ℕ → ℚ) × (ℕ → ℕ → ℕ) :=
  let y := regCoord (photon_to_y_base p) registration.1 ydim
  let x := regCoord (photon_to_x_base p) registration.2 xdim
  ((fun y2 x2 => if y2 = y ∧ x2 = x then st.1 y x + (photon_to_tau p : ℚ)
                 else st.1 y2 x2),
   inc16 st.2 y x)

/-- Kernel `_load_flim_intensity_empirical_uncompressed`: accumulate
tau sums and photon counts per pixel, then divide the lifetime array
pointwise by the intensity array (unguarded). -/
def _load_flim_intensity_empirical_uncompressed (photons : List ℕ)
    (ydim xdim : ℕ) : (ℕ → ℕ → Option ℚ) × (ℕ → ℕ → ℕ) :=
  let st := photons.foldl (flim_photon_step (0, 0) ydim xdim)
    (fun _ _ => 0, fun _ _ => 0)
  (fun y x => fdiv (st.1 y x) (st.2 y x), st.2)

/-- Kernel `_load_flim_intensity_empirical_uncompressed_registered`:
identical loop with the registration shift folded into the coordinate
macros. -/
def _load_flim_intensity_empirical_uncompressed_registered
    (photons : List ℕ) (ydim xdim : ℕ) (registration : ℤ × ℤ) :
    (ℕ → ℕ → Option ℚ) × (ℕ → ℕ → ℕ) :=
  let st := photons.foldl (flim_photon_step registration ydim xdim)
    (fun _ _ => 0, fun _ _ => 0)
  (fun y x => fdiv (st.1 y x) (st.2 y x), st.2)

/-- One step of the compressed-strip cursor loop: pixel `k` owns the
next `data[k]` tau values of the arrival stream, summed (exactly, into
`f64`) into the lifetime image while the cursor advances. -/
def comp_flim_step (data stream : List ℕ) (xdim : ℕ)
    (st : ℕ × (ℕ → ℕ → ℚ)) (k : ℕ) : ℕ × (ℕ → ℕ → ℚ) :=
  let c := data.getD k 0
  (st.1 + c,
   fun y x =>
     if y = k / xdim ∧ x = k % xdim then
       st.2 y x + (((stream.drop st.1).take c).map (fun t => (t : ℚ))).sum
     else st.2 y x)

/-- Kernel `_load_flim_intensity_empirical_compressed`: copy the
intensity slab, walk the arrival stream in lock-step with it summing
each pixel window, then divide each lifetime pixel by its intensity
(unguarded). -/
def _load_flim_intensity_empirical_compressed (data stream : List ℕ)
    (ydim xdim : ℕ) : (ℕ → ℕ → Option ℚ) × (ℕ → ℕ → ℕ) :=
  let life := ((List.range (ydim * xdim)).foldl
    (comp_flim_step data stream xdim) (0, fun _ _ => 0)).2
  (fun y x => fdiv (life y x) (load_array_compressed_siff data ydim xdim y x),
   load_array_compressed_siff data ydim xdim)

/-- Kernel `_sum_mask_empirical_intensity_raw`: per photon,
`lifetime_sum += tau * mask` and `intensity_sum += mask`; afterwards
the kernel itself performs `lifetime_sum /= intensity_sum`. -/
def _sum_mask_empirical_intensity_raw (mask : ℕ → ℕ → Bool)
    (photons : List ℕ) (ydim xdim : ℕ) : Option ℚ × ℕ :=
  let fin := photons.foldl
    (fun (st : ℚ × ℕ) p =>
      let y := regCoord (photon_to_y_base p) 0 ydim
      let x := regCoord (photon_to_x_base p) 0 xdim
      (st.1 + (if mask y x then (photon_to_tau p : ℚ) else 0),
       st.2 + (if mask y x then 1 else 0))) (0, 0)
  (fdiv fin.1 fin.2, fin.2)

/-- One step of the compressed masked-reduction cursor loop of
`_sum_mask_empirical_intensity_compressed`: per pixel,
`intensity_sum += count * mask` and `lifetime_sum += mask * (the u16
sum of the pixel window)`.  The window is summed with `.sum::<u16>()`
in the source, so it wraps modulo `2 ^ 16`. -/
def comp_mask_step (mask : ℕ → ℕ → Bool) (data stream : List ℕ)
    (xdim : ℕ) (st : ℕ × ℚ × ℕ) (k : ℕ) : ℕ × ℚ × ℕ :=
  let c := data.getD k 0
  let m := mask (k / xdim) (k % xdim)
  (st.1 + c,
   st.2.1 + (if m then ((((stream.drop st.1).take c).sum % 65536 : ℕ) : ℚ)
             else 0),
   st.2.2 + (if m then c else 0))

/-- Kernel `_sum_mask_empirical_intensity_compressed`; the kernel
itself finishes with `lifetime_sum /= intensity_sum`. -/
def _sum_mask_empirical_intensity_compressed (mask : ℕ → ℕ → Bool)
    (data stream : List ℕ) (ydim xdim : ℕ) : Option ℚ × ℕ :=
  let fin := (List.range (ydim * xdim)).foldl
    (comp_mask_step mask data stream xdim) (0, 0, 0)
  (fdiv fin.2.1 fin.2.2, fin.2.2)

/-- Kernel `_sum_mask_empirical_intensity_compressed_registered`: roll
the mask by the negated shift and invoke the unregistered reduction. -/
def _sum_mask_empirical_intensity_compressed_registered
    (mask : ℕ → ℕ → Bool) (data stream : List ℕ) (ydim xdim : ℕ)
    (registration : ℤ × ℤ) : Option ℚ × ℕ :=
  _sum_mask_empirical_intensity_compressed
    (roll mask (-registration.1, -registration.2) ydim xdim)
    data stream ydim xdim

/-! ## Per-frame dispatch.

A frame strip decodes either as a raw photon list or as a compressed
intensity slab plus arrival stream.  The per-frame dispatchers that
select a kernel from the format tag (`sum_mask` and friends,
re-exported by `data/image.rs`) live in a module file absent from the
source tree; they are modelled from spec section 4.2 and the
`load_array_from_siff!` macro pattern of `data/image/utils.rs`:
dispatch on the tag, raw to the raw kernel, compressed to the
compressed kernel. -/

/-- Decoded payload of one frame strip.  `raw` carries the decoded
64-bit photon words; `compressed` carries the intensity slab and the
arrival stream. -/
inductive FrameData : Type
  | raw (photons : List ℕ)
  | compressed (data : List ℕ) (stream : List ℕ)

/-- Modelled from the spec: the intensity dispatcher (tag RAW selects
the raw kernel, tag COMPRESSED the compressed kernel). -/
def load_array_intensity (fd : FrameData) (ydim xdim : ℕ) : ℕ → ℕ → ℕ :=
  match fd with
  | .raw photons => load_array_raw_siff photons ydim xdim (fun _ _ => 0)
  | .compressed data _ => load_array_compressed_siff data ydim xdim

/-- Modelled from the spec: the registered intensity dispatcher. -/
def load_array_intensity_registered (fd : FrameData) (ydim xdim : ℕ)
    (registration : ℤ × ℤ) : ℕ → ℕ → ℕ :=
  match fd with
  | .raw photons =>
      load_array_raw_siff_registered photons ydim xdim registration
        (fun _ _ => 0)
  | .compressed data _ =>
      load_array_compressed_siff_registered data ydim xdim registration

/-- Modelled from the spec: the masked-intensity dispatcher
(`sum_mask` of the missing `intensity::siff` module file). -/
def sum_intensity_mask (mask : ℕ → ℕ → Bool) (fd : FrameData)
    (ydim xdim : ℕ) : ℕ :=
  match fd with
  | .raw photons => sum_mask_raw_siff mask photons ydim xdim
  | .compressed data _ => sum_mask_compressed_siff mask data ydim xdim

/-- Modelled from the spec: the registered masked-intensity
dispatcher (`sum_mask_registered`). -/
def sum_intensity_mask_registered (mask : ℕ → ℕ → Bool) (fd : FrameData)
    (ydim xdim : ℕ) (registration : ℤ × ℤ) : ℕ :=
  match fd with
  | .raw photons =>
      sum_mask_raw_siff_registered mask photons ydim xdim registration
  | .compressed data _ =>
      sum_mask_compressed_siff_registered mask data ydim xdim registration

/-- Dispatcher of `load_flim_empirical_and_intensity_arrays`
(`empirical_lifetime.rs`): pair of (finalized lifetime image,
intensity image). -/
def load_flim_arrays (fd : FrameData) (ydim xdim : ℕ) :
    (ℕ → ℕ → Option ℚ) × (ℕ → ℕ → ℕ) :=
  match fd with
  | .raw photons =>
      _load_flim_intensity_empirical_uncompressed photons ydim xdim
  | .compressed data stream =>
      _load_flim_intensity_empirical_compressed data stream ydim xdim

/-- Dispatcher of
`load_flim_empirical_and_intensity_arrays_registered`: the raw path
shifts photon coordinates, the compressed path decodes unregistered and
then rolls both output arrays. -/
def load_flim_arrays_registered (fd : FrameData) (ydim xdim : ℕ)
    (registration : ℤ × ℤ) : (ℕ → ℕ → Option ℚ) × (ℕ → ℕ → ℕ) :=
  match fd with
  | .raw photons =>
      _load_flim_intensity_empirical_uncompressed_registered photons
        ydim xdim registration
  | .compressed data stream =>
      let u := _load_flim_intensity_empirical_compressed data stream ydim xdim
      (roll u.1 registration ydim xdim, roll u.2 registration ydim xdim)

/-- Dispatcher of `load_histogram` (`histogram.rs`): tag RAW feeds the
photon words to the uncompressed kernel, tag COMPRESSED feeds the
arrival slab to the compressed kernel. -/
def load_histogram_frame (fd : FrameData) (nBins : ℕ) : ℕ → ℕ :=
  match fd with
  | .raw photons => _load_histogram_uncompressed photons nBins (fun _ => 0)
  | .compressed _ stream => _load_histogram_compressed stream nBins (fun _ => 0)

/-! ## Reader-level request handling (`src/siffreader.rs`).

A `SiffFile` abstracts the opened reader: the decoded directory-record
sequence with per-frame payloads, the shared image dimensions
precomputed at open (when consistent), and the tau-bin count of the
instrument.  The registration table (`HashMap<u64, (i32, i32)>`) is
modelled as an association list with lookup. -/

/-- One frame as the reader sees it: dimensions, decoded strip payload,
and the metadata fields used by the timestamp / appended-text
accessors (their numeric content is opaque to the core). -/
structure Frame where
  ydim : ℕ
  xdim : ℕ
  data : FrameData
  expTimestamp : ℕ
  text : ℕ

instance : Inhabited Frame := ⟨⟨0, 0, .raw [], 0, 0⟩⟩

/-- The opened reader state. -/
structure SiffFile where
  frames : List Frame
  imageDims : Option (ℕ × ℕ)
  numTauBins : ℕ

/-- Registration table: association list from frame index to the
`(dy, dx)` shift. -/
abbrev RegMap : Type := List (ℕ × (ℤ × ℤ))

/-- Error kinds relevant to the claims (collapsing
`CorrosiffError` / `FramesError` / `DimensionsError` of the source). -/
inductive ReaderError : Type
  | dimensionsIncorrectFrames
  | dimensionsNoConsistent
  | dimensionsMismatched
  | registrationFramesMissing
deriving DecidableEq

/-- `_check_frames_in_bounds`: every requested index has an IFD. -/
def _check_frames_in_bounds (frames : List ℕ) (file : SiffFile) : Bool :=
  frames.all (fun f => f < file.frames.length)

/-- `_check_shared_shape`: the dimensions of `frames[0]`, provided all
requested frames agree with them (the source indexes `frames[0]`
unconditionally; requests with an empty frame list reach this code only
when the shared dimensions were not precomputed). -/
def _check_shared_shape (frames : List ℕ) (file : SiffFile) :
    Option (ℕ × ℕ) :=
  match frames with
  | [] => none
  | f0 :: _ =>
    let d := ((file.frames.getD f0 default).ydim,
              (file.frames.getD f0 default).xdim)
    if frames.all (fun f => ((file.frames.getD f default).ydim,
                             (file.frames.getD f default).xdim) = d)
    then some d else none

/-- `self._image_dims.clone().or_else(|| _check_shared_shape(..))`. -/
def imageDimsOf (file : SiffFile) (frames : List ℕ) : Option (ℕ × ℕ) :=
  match file.imageDims with
  | some d => some d
  | none => _check_shared_shape frames file

/-- `_check_registration`: an empty table is converted to `None`; a
non-empty table must contain every requested frame, otherwise the call
fails with `RegistrationFramesMissing`. -/
def _check_registration (registration : Option RegMap) (frames : List ℕ) :
    Except ReaderError (Option RegMap) :=
  match registration with
  | none => .ok none
  | some reg =>
    if reg.isEmpty then .ok none
    else if frames.all (fun k => (List.lookup k reg).isSome) then
      .ok (some reg)
    else .error .registrationFramesMissing

/-- `*reg.get(&this_frame).unwrap()` after a successful registration
check (the check guarantees the entry is present). -/
def regShiftFor (reg : RegMap) (i : ℕ) : ℤ × ℤ :=
  (List.lookup i reg).getD (0, 0)

/-- `SiffReader::get_frames_intensity`: bounds check, shared-shape
check, registration check, then one intensity image per requested
frame (the parallel driver writes disjoint slices, so the request is
their list). -/
def get_frames_intensity (file : SiffFile) (frames : List ℕ)
    (registration : Option RegMap) :
    Except ReaderError (List (ℕ → ℕ → ℕ)) :=
  if ¬ _check_frames_in_bounds frames file then
    .error .dimensionsIncorrectFrames
  else match imageDimsOf file frames with
  | none => .error .dimensionsNoConsistent
  | some _ =>
    match _check_registration registration frames with
    | .error e => .error e
    | .ok none => .ok (frames.map (fun i =>
        let fr := file.frames.getD i default
        load_array_intensity fr.data fr.ydim fr.xdim))
    | .ok (some reg) => .ok (frames.map (fun i =>
        let fr := file.frames.getD i default
        load_array_intensity_registered fr.data fr.ydim fr.xdim
          (regShiftFor reg i)))

/-- `SiffReader::get_frames_flim`: identical checks, then per frame the
(lifetime, intensity) pair; the result collects the lifetime images and
the intensity images (the two output arrays of the source). -/
def get_frames_flim (file : SiffFile) (frames : List ℕ)
    (registration : Option RegMap) :
    Except ReaderError
      (List (ℕ → ℕ → Option ℚ) × List (ℕ → ℕ → ℕ)) :=
  if ¬ _check_frames_in_bounds frames file then
    .error .dimensionsIncorrectFrames
  else match imageDimsOf file frames with
  | none => .error .dimensionsNoConsistent
  | some _ =>
    match _check_registration registration frames with
    | .error e => .error e
    | .ok none => .ok
        (frames.map (fun i =>
          let fr := file.frames.getD i default
          (load_flim_arrays fr.data fr.ydim fr.xdim).1),
         frames.map (fun i =>
          let fr := file.frames.getD i default
          (load_flim_arrays fr.data fr.ydim fr.xdim).2))
    | .ok (some reg) => .ok
        (frames.map (fun i =>
          let fr := file.frames.getD i default
          (load_flim_arrays_registered fr.data fr.ydim fr.xdim
            (regShiftFor reg i)).1),
         frames.map (fun i =>
          let fr := file.frames.getD i default
          (load_flim_arrays_registered fr.data fr.ydim fr.xdim
            (regShiftFor reg i)).2))

/-- `SiffReader::get_histogram`: bounds check, then one histogram per
frame with the tau-bin count of the file. -/
def get_histogram (file : SiffFile) (frames : List ℕ) :
    Except ReaderError (List (ℕ → ℕ)) :=
  if ¬ _check_frames_in_bounds frames file then
    .error .dimensionsIncorrectFrames
  else .ok (frames.map (fun i =>
    load_histogram_frame (file.frames.getD i default).data file.numTauBins))

/-- A flat 2-D region of interest: its dimensions and its mask. -/
structure Roi2 where
  ydim : ℕ
  xdim : ℕ
  mask : ℕ → ℕ → Bool

/-- `SiffReader::sum_roi_flat`: bounds check, shared-shape check, mask
shape check, registration check, then one masked sum per frame. -/
def sum_roi_flat (file : SiffFile) (roi : Roi2) (frames : List ℕ)
    (registration : Option RegMap) : Except ReaderError (List ℕ) :=
  if ¬ _check_frames_in_bounds frames file then
    .error .dimensionsIncorrectFrames
  else match imageDimsOf file frames with
  | none => .error .dimensionsNoConsistent
  | some d =>
    if d ≠ (roi.ydim, roi.xdim) then .error .dimensionsMismatched
    else match _check_registration registration frames with
    | .error e => .error e
    | .ok none => .ok (frames.map (fun i =>
        let fr := file.frames.getD i default
        sum_intensity_mask roi.mask fr.data fr.ydim fr.xdim))
    | .ok (some reg) => .ok (frames.map (fun i =>
        let fr := file.frames.getD i default
        sum_intensity_mask_registered roi.mask fr.data fr.ydim fr.xdim
          (regShiftFor reg i)))

/-- `SiffReader::get_experiment_timestamps`: bounds check, then the
per-frame timestamp values (representative of all timestamp
accessors, which share this bounds-check-then-map shape). -/
def get_experiment_timestamps (file : SiffFile) (frames : List ℕ) :
    Except ReaderError (List ℕ) :=
  if ¬ _check_frames_in_bounds frames file then
    .error .dimensionsIncorrectFrames
  else .ok (frames.map (fun i => (file.frames.getD i default).expTimestamp))

/-- `SiffReader::get_appended_text` indexes `self._ifds[x as usize]`
for every requested frame with no bounds check and returns a plain
vector; `none` models the index-out-of-bounds panic on an out-of-range
request. -/
def get_appended_text (file : SiffFile) (frames : List ℕ) :
    Option (List (ℕ × ℕ)) :=
  if frames.all (fun f => f < file.frames.length) then
    some (frames.map (fun i => (i, (file.frames.getD i default).text)))
  else none

/-! ## Stream-position behaviour of the frame dispatchers.

For the position invariant the relevant state of a reader is its
stream position and the length of the underlying file: `read_exact n`
succeeds exactly when `pos + n <= len` and advances the position;
an absolute seek always succeeds; a relative seek fails on a negative
target.  `load_array` is the dispatcher of
`src/data/image/intensity/siff.rs` (lines 353..398) and
`load_histogram` the dispatcher of `src/data/image/flim/histogram.rs`
(lines 92..118); both are modelled as (success flag, final reader
state). -/

/-- Reader state: stream position and file length. -/
structure Rdr where
  pos : ℕ
  len : ℕ
deriving DecidableEq

/-- `read_exact`: fails without moving when the read runs past the end
of the file, otherwise advances the position. -/
def readExactPos (r : Rdr) (n : ℕ) : Bool × Rdr :=
  if r.pos + n ≤ r.len then (true, ⟨r.pos + n, r.len⟩) else (false, r)

/-- `seek(SeekFrom::Current(off))`: fails without moving on a negative
target position. -/
def seekCurPos (r : Rdr) (off : ℤ) : Bool × Rdr :=
  if (r.pos : ℤ) + off < 0 then (false, r)
  else (true, ⟨((r.pos : ℤ) + off).toNat, r.len⟩)

/-- Directory-record fields consumed by the dispatchers. -/
structure IFDRec where
  stripOffset : ℕ
  stripBytes : ℕ
  ydim : ℕ
  xdim : ℕ
  siffTag : ℕ
deriving DecidableEq

/-- Position behaviour of `load_array_raw_siff`: read `strip_bytes`
bytes, then the `u8 -> u64` cast fails unless the byte count is a
multiple of 8. -/
def rawKernelPos (sb : ℕ) (r : Rdr) : Bool × Rdr :=
  let res := readExactPos r sb
  if res.1 then (decide (sb % 8 = 0), res.2) else (false, res.2)

/-- Position behaviour of `load_array_compressed_siff`: seek back by
`h * w * 2` bytes, then read the slab. -/
def compKernelPos (hw2 : ℕ) (r : Rdr) : Bool × Rdr :=
  let s := seekCurPos r (-(hw2 : ℤ))
  if s.1 then readExactPos s.2 hw2 else (false, s.2)

/-- Shared tail of both dispatchers: on kernel success, seek back to
the saved position; on failure, propagate with the reader wherever the
failing step left it. -/
def dispatchFinish (p : ℕ) (res : Bool × Rdr) : Bool × Rdr :=
  if res.1 then (true, ⟨p, res.2.len⟩) else (false, res.2)

/-- Dispatcher `load_array` of `intensity/siff.rs`: save the position,
seek to the strip, dispatch on the tag, and restore the saved position
only on the success path; the error paths propagate with `?` before
the restoring seek runs (an unknown tag fails with the reader still at
the strip offset). -/
def load_array_pos (ifd : IFDRec) (r0 : Rdr) : Bool × Rdr :=
  dispatchFinish r0.pos
    (if ifd.siffTag = 0 then
      rawKernelPos ifd.stripBytes ⟨ifd.stripOffset, r0.len⟩
    else if ifd.siffTag = 1 then
      compKernelPos (ifd.ydim * ifd.xdim * 2) ⟨ifd.stripOffset, r0.len⟩
    else (false, ⟨ifd.stripOffset, r0.len⟩))

/-- Position behaviour of `_load_histogram_uncompressed`: read
`strip_bytes`, cast to `u64` (multiple of 8). -/
def histRawKernelPos (sb : ℕ) (r : Rdr) : Bool × Rdr :=
  let res := readExactPos r sb
  if res.1 then (decide (sb % 8 = 0), res.2) else (false, res.2)

/-- Position behaviour of `_load_histogram_compressed`: read
`strip_bytes` of tau words, cast to `u16` (multiple of 2). -/
def histCompKernelPos (sb : ℕ) (r : Rdr) : Bool × Rdr :=
  let res := readExactPos r sb
  if res.1 then (decide (sb % 2 = 0), res.2) else (false, res.2)

/-- Dispatcher `load_histogram` of `histogram.rs`: save the position,
seek to the strip, dispatch on the tag; the restoring seek runs only
after the match, so every error path (kernel failure or an unknown tag
value) propagates with the position unrestored. -/
def load_histogram_pos (ifd : IFDRec) (r0 : Rdr) : Bool × Rdr :=
  dispatchFinish r0.pos
    (if ifd.siffTag = 0 then
      histRawKernelPos ifd.stripBytes ⟨ifd.stripOffset, r0.len⟩
    else if ifd.siffTag = 1 then
      histCompKernelPos ifd.stripBytes ⟨ifd.stripOffset, r0.len⟩
    else (false, ⟨ifd.stripOffset, r0.len⟩))

/-! ## Closed forms used to characterize the kernels -/

/-- Number of photons of a strip that land on pixel `(y, x)` under a
registration shift. -/
def rawCount (photons : List ℕ) (reg : ℤ × ℤ) (ydim xdim y x : ℕ) : ℕ :=
  photons.countP (fun p =>
    decide (regCoord (photon_to_y_base p) reg.1 ydim = y ∧
            regCoord (photon_to_x_base p) reg.2 xdim = x))

/-- Window of the arrival stream owned by pixel `k` of the slab,
summed exactly (in `f64`). -/
def pixelWindowQ (data stream : List ℕ) (k : ℕ) : ℚ :=
  (((stream.drop ((data.take k).sum)).take (data.getD k 0)).map
    (fun t => (t : ℚ))).sum

/-- Window of the arrival stream owned by pixel `k`, summed with the
wrapping `u16` sum of the masked compressed reduction. -/
def pixelWindow16 (data stream : List ℕ) (k : ℕ) : ℕ :=
  ((stream.drop ((data.take k).sum)).take (data.getD k 0)).sum % 65536

/-- Masked tau sum of a raw strip: the exact sum of the tau values of
the photons landing inside the mask. -/
def maskedTauSumRaw (mask : ℕ → ℕ → Bool) (photons : List ℕ)
    (ydim xdim : ℕ) : ℚ :=
  (photons.map (fun p =>
    if mask (regCoord (photon_to_y_base p) 0 ydim)
            (regCoord (photon_to_x_base p) 0 xdim)
    then (photon_to_tau p : ℚ) else 0)).sum

/-- Masked photon count of a raw strip. -/
def maskedCountRaw (mask : ℕ → ℕ → Bool) (photons : List ℕ)
    (ydim xdim : ℕ) : ℕ :=
  photons.countP (fun p =>
    mask (regCoord (photon_to_y_base p) 0 ydim)
         (regCoord (photon_to_x_base p) 0 xdim))

/-- The masked compressed FLIM reduction in closed form: the sum of
the wrapped per-pixel window sums inside the mask. -/
def maskedTauSumComp (mask : ℕ → ℕ → Bool) (data stream : List ℕ)
    (ydim xdim : ℕ) : ℚ :=
  Finset.sum (Finset.range (ydim * xdim)) (fun k =>
    if mask (k / xdim) (k % xdim)
    then ((pixelWindow16 data stream k : ℕ) : ℚ) else 0)

/-- Masked intensity sum of a compressed strip in closed form. -/
def maskedCountComp (mask : ℕ → ℕ → Bool) (data : List ℕ)
    (ydim xdim : ℕ) : ℕ :=
  Finset.sum (Finset.range (ydim * xdim)) (fun k =>
    if mask (k / xdim) (k % xdim) then data.getD k 0 else 0)

/-- Exact tau sum of the photons of a raw strip landing on one
pixel. -/
def pixelTauSumRaw (photons : List ℕ) (ydim xdim y x : ℕ) : ℚ :=
  (photons.map (fun p =>
    if regCoord (photon_to_y_base p) ((0, 0) : ℤ × ℤ).1 ydim = y ∧
       regCoord (photon_to_x_base p) ((0, 0) : ℤ × ℤ).2 xdim = x
    then (photon_to_tau p : ℚ) else 0)).sum

/-- Out-of-wraparound condition for a raw frame: every pixel sees
fewer than `2 ^ 16` photons, so the `u16` intensity accumulator never
wraps.  Trivially true for compressed frames, whose intensity slab is
copied rather than accumulated. -/
def NoWrap (fd : FrameData) (ydim xdim : ℕ) : Prop :=
  match fd with
  | .raw photons => ∀ y < ydim, ∀ x < xdim,
      rawCount photons (0, 0) ydim xdim y x < 65536
  | .compressed _ _ => True

/-! ## Arithmetic of the cyclic coordinate map -/

theorem int_emod_add (x y d : ℤ) : (x % d + y) % d = (x + y) % d := by
  have h : x % d + y + d * (x / d) = x + y := by
    have h2 := Int.emod_add_ediv x d
    linarith
  rw [← h, Int.add_mul_emod_self_left]

theorem regCoord_lt (a : ℕ) (s : ℤ) (dim : ℕ) (hd : 0 < dim) :
    regCoord a s dim < dim := by
  unfold regCoord
  have hne : (dim : ℤ) ≠ 0 := by exact_mod_cast hd.ne'
  have h1 : 0 ≤ ((a : ℤ) + s) % (dim : ℤ) := Int.emod_nonneg _ hne
  have h2 : ((a : ℤ) + s) % (dim : ℤ) < (dim : ℤ) :=
    Int.emod_lt_of_pos _ (by exact_mod_cast hd)
  omega

theorem regCoord_mod (a : ℕ) (s : ℤ) (dim : ℕ) :
    regCoord (a % dim) s dim = regCoord a s dim := by
  unfold regCoord
  congr 1
  have hcast : ((a % dim : ℕ) : ℤ) = (a : ℤ) % (dim : ℤ) := by push_cast; rfl
  rw [hcast, int_emod_add]

theorem regCoord_cancel (a : ℕ) (s : ℤ) (dim : ℕ) (hd : 0 < dim) :
    regCoord (regCoord a s dim) (-s) dim = a % dim := by
  unfold regCoord
  have hne : (dim : ℤ) ≠ 0 := by exact_mod_cast hd.ne'
  have h1 : 0 ≤ ((a : ℤ) + s) % (dim : ℤ) := Int.emod_nonneg _ hne
  rw [Int.toNat_of_nonneg h1, int_emod_add]
  have hx : (a : ℤ) + s + -s = (a : ℤ) := by ring
  rw [hx]
  have hcast : (a : ℤ) % (dim : ℤ) = ((a % dim : ℕ) : ℤ) := by push_cast; rfl
  rw [hcast, Int.toNat_ofNat]

theorem regCoord_zero (a dim : ℕ) : regCoord a 0 dim = a % dim := by
  unfold regCoord
  have hx : (a : ℤ) + 0 = (a : ℤ) := by ring
  rw [hx]
  have hcast : (a : ℤ) % (dim : ℤ) = ((a % dim : ℕ) : ℤ) := by push_cast; rfl
  rw [hcast, Int.toNat_ofNat]

theorem regCoord_eq_iff (a y : ℕ) (s : ℤ) (dim : ℕ) (hy : y < dim) :
    regCoord a s dim = regCoord y s dim ↔ regCoord a 0 dim = y := by
  have hd : 0 < dim := by omega
  constructor
  · intro heq
    have := congrArg (fun t => regCoord t (-s) dim) heq
    simp only [regCoord_cancel _ _ _ hd] at this
    rw [regCoord_zero, this, Nat.mod_eq_of_lt hy]
  · intro heq
    rw [regCoord_zero] at heq
    rw [← regCoord_mod a s dim, heq]

/-! ## Fold characterizations of the raw kernels -/

theorem load_raw_reg_aux (photons : List ℕ) (ydim xdim : ℕ) (reg : ℤ × ℤ)
    (a0 : ℕ → ℕ → ℕ) (y x : ℕ) :
    load_array_raw_siff_registered photons ydim xdim reg a0 y x =
      (if rawCount photons reg ydim xdim y x = 0 then a0 y x
       else (a0 y x + rawCount photons reg ydim xdim y x) % 65536) := by
  induction photons generalizing a0 with
  | nil => simp [load_array_raw_siff_registered, rawCount]
  | cons p tl ih =>
    simp only [load_array_raw_siff_registered, List.foldl_cons] at *
    rw [ih]
    simp only [rawCount, List.countP_cons]
    by_cases hp : regCoord (photon_to_y_base p) reg.1 ydim = y ∧
                  regCoord (photon_to_x_base p) reg.2 xdim = x
    · have hyx : inc16 a0 (regCoord (photon_to_y_base p) reg.1 ydim)
          (regCoord (photon_to_x_base p) reg.2 xdim) y x
          = (a0 y x + 1) % 65536 := by
        simp [inc16, hp.1, hp.2]
      rw [hyx]
      have hone : (if (decide (regCoord (photon_to_y_base p) reg.1 ydim = y ∧
            regCoord (photon_to_x_base p) reg.2 xdim = x)) = true
          then 1 else 0) = 1 := by simp [hp.1, hp.2]
      rw [hone]
      rcases hc : tl.countP (fun p2 =>
        decide (regCoord (photon_to_y_base p2) reg.1 ydim = y ∧
                regCoord (photon_to_x_base p2) reg.2 xdim = x)) with _ | n
      · simp only [hc]
        simp
      · simp only [hc, Nat.succ_ne_zero, if_false, Nat.add_eq]
        rw [Nat.mod_add_mod]
        have hax : a0 y x + 1 + (n + 1) = a0 y x + (n + 1 + 1) := by omega
        rw [hax]
    · have hyx : inc16 a0 (regCoord (photon_to_y_base p) reg.1 ydim)
          (regCoord (photon_to_x_base p) reg.2 xdim) y x = a0 y x := by
        simp only [inc16]
        rw [if_neg]
        intro hcon
        exact hp ⟨hcon.1.symm, hcon.2.symm⟩
      rw [hyx]
      simp [hp]

theorem load_raw_reg_apply (photons : List ℕ) (ydim xdim : ℕ)
    (reg : ℤ × ℤ) (y x : ℕ) :
    load_array_raw_siff_registered photons ydim xdim reg (fun _ _ => 0) y x =
      rawCount photons reg ydim xdim y x % 65536 := by
  rw [load_raw_reg_aux]
  rcases hc : rawCount photons reg ydim xdim y x with _ | n <;> simp

theorem load_raw_eq_registered_zero (photons : List ℕ) (ydim xdim : ℕ)
    (a0 : ℕ → ℕ → ℕ) :
    load_array_raw_siff photons ydim xdim a0 =
      load_array_raw_siff_registered photons ydim xdim (0, 0) a0 := rfl

theorem sum_mask_raw_reg_aux (mask : ℕ → ℕ → Bool) (photons : List ℕ)
    (ydim xdim : ℕ) (reg : ℤ × ℤ) (s0 : ℕ) :
    photons.foldl (fun s p =>
      s + (if mask (regCoord (photon_to_y_base p) reg.1 ydim)
                   (regCoord (photon_to_x_base p) reg.2 xdim)
           then 1 else 0)) s0 =
      s0 + photons.countP (fun p =>
        mask (regCoord (photon_to_y_base p) reg.1 ydim)
             (regCoord (photon_to_x_base p) reg.2 xdim)) := by
  induction photons generalizing s0 with
  | nil => simp
  | cons p tl ih =>
    simp only [List.foldl_cons, List.countP_cons, ih]
    by_cases hp : mask (regCoord (photon_to_y_base p) reg.1 ydim)
                       (regCoord (photon_to_x_base p) reg.2 xdim)
    · simp [hp]; omega
    · simp [hp]

theorem sum_mask_raw_reg_eq (mask : ℕ → ℕ → Bool) (photons : List ℕ)
    (ydim xdim : ℕ) (reg : ℤ × ℤ) :
    sum_mask_raw_siff_registered mask photons ydim xdim reg =
      photons.countP (fun p =>
        mask (regCoord (photon_to_y_base p) reg.1 ydim)
             (regCoord (photon_to_x_base p) reg.2 xdim)) := by
  unfold sum_mask_raw_siff_registered
  rw [sum_mask_raw_reg_aux, Nat.zero_add]

theorem sum_mask_raw_eq (mask : ℕ → ℕ → Bool) (photons : List ℕ)
    (ydim xdim : ℕ) :
    sum_mask_raw_siff mask photons ydim xdim =
      photons.countP (fun p =>
        mask (regCoord (photon_to_y_base p) 0 ydim)
             (regCoord (photon_to_x_base p) 0 xdim)) := by
  have h : sum_mask_raw_siff mask photons ydim xdim =
      sum_mask_raw_siff_registered mask photons ydim xdim (0, 0) := rfl
  rw [h, sum_mask_raw_reg_eq]

/-! ## Sum bridges: list folds, flat indices, and pixel grids -/

theorem foldl_add_eq (l : List ℕ) (f : ℕ → ℕ) (s0 : ℕ) :
    l.foldl (fun s k => s + f k) s0 = s0 + (l.map f).sum := by
  induction l generalizing s0 with
  | nil => simp
  | cons a tl ih => simp [ih, Nat.add_assoc]

theorem list_range_map_sum (n : ℕ) (f : ℕ → ℕ) :
    ((List.range n).map f).sum = Finset.sum (Finset.range n) f := by
  induction n with
  | zero => simp
  | succ k ih =>
    rw [List.range_succ, Finset.sum_range_succ]
    simp [ih]

theorem sum_flat_grid {M : Type} [AddCommMonoid M] (h w : ℕ)
    (f : ℕ → ℕ → M) :
    Finset.sum (Finset.range (h * w)) (fun k => f (k / w) (k % w)) =
      Finset.sum (Finset.range h) (fun y =>
        Finset.sum (Finset.range w) (fun x => f y x)) := by
  rcases Nat.eq_zero_or_pos w with hw | hw
  · subst hw; simp
  · rw [← Finset.sum_product']
    apply Finset.sum_nbij' (fun k => (k / w, k % w))
      (fun p => p.1 * w + p.2)
    · intro k hk
      simp only [Finset.mem_range] at hk
      simp only [Finset.mem_product, Finset.mem_range]
      constructor
      · have hk2 : k < w * h := by rw [Nat.mul_comm w h]; exact hk
        exact Nat.div_lt_of_lt_mul hk2
      · exact Nat.mod_lt _ hw
    · intro p hp
      simp only [Finset.mem_product, Finset.mem_range] at hp
      simp only [Finset.mem_range]
      have hlt : p.1 * w + p.2 < (p.1 + 1) * w := by
        have hexp : (p.1 + 1) * w = p.1 * w + w := by ring
        omega
      have hle : (p.1 + 1) * w ≤ h * w :=
        Nat.mul_le_mul_right w (Nat.succ_le_of_lt hp.1)
      exact Nat.lt_of_lt_of_le hlt hle
    · intro k hk
      rw [Nat.mul_comm]
      exact (Nat.div_add_mod k w)
    · intro p hp
      simp only [Finset.mem_product, Finset.mem_range] at hp
      have hcomm : p.1 * w + p.2 = p.2 + w * p.1 := by ring
      have hdiv : (p.1 * w + p.2) / w = p.1 := by
        rw [hcomm, Nat.add_mul_div_left _ _ hw, Nat.div_eq_of_lt hp.2,
          Nat.zero_add]
      have hmod : (p.1 * w + p.2) % w = p.2 := by
        rw [hcomm, Nat.add_mul_mod_self_left, Nat.mod_eq_of_lt hp.2]
      simp [hdiv, hmod]
    · intro k hk
      rfl

theorem countP_range_partition (l : List ℕ) (g : ℕ → ℕ) (H : ℕ) :
    Finset.sum (Finset.range H) (fun t => l.countP (fun v => g v == t)) =
      l.countP (fun v => decide (g v < H)) := by
  induction l with
  | nil => simp
  | cons a tl ih =>
    simp only [List.countP_cons]
    rw [Finset.sum_add_distrib, ih]
    congr 1
    by_cases hga : g a < H
    · rw [if_pos (by simp [hga])]
      have hform : (fun t => if (g a == t) = true then 1 else 0) =
          (fun t => if g a = t then 1 else 0) := by
        funext t; by_cases hat : g a = t <;> simp [hat]
      rw [hform, Finset.sum_ite_eq]
      simp [hga]
    · rw [if_neg (by simp [hga])]
      apply Finset.sum_eq_zero
      intro t ht
      simp only [Finset.mem_range] at ht
      have : ¬ (g a = t) := by omega
      simp [this]

theorem grid_indicator (h w cy cx : ℕ) (hy : cy < h) (hx : cx < w)
    (g : ℕ → ℕ → ℕ) :
    Finset.sum (Finset.range h) (fun y =>
      Finset.sum (Finset.range w) (fun x =>
        if cy = y ∧ cx = x then g y x else 0)) = g cy cx := by
  have hinner : ∀ y, Finset.sum (Finset.range w) (fun x =>
      if cy = y ∧ cx = x then g y x else 0) =
      if cy = y then g y cx else 0 := by
    intro y
    by_cases hcy : cy = y
    · subst hcy
      simp only [true_and]
      rw [Finset.sum_ite_eq]
      simp [hx]
    · simp [hcy]
  rw [Finset.sum_congr rfl (fun y _ => hinner y), Finset.sum_ite_eq]
  simp [hy]

theorem countP_grid_partition {α : Type} (l : List α) (cy cx : α → ℕ)
    (mask : ℕ → ℕ → Bool) (h w : ℕ)
    (hy : ∀ a ∈ l, cy a < h) (hx : ∀ a ∈ l, cx a < w) :
    Finset.sum (Finset.range h) (fun y =>
      Finset.sum (Finset.range w) (fun x =>
        if mask y x then l.countP (fun a => decide (cy a = y ∧ cx a = x))
        else 0)) =
      l.countP (fun a => mask (cy a) (cx a)) := by
  induction l with
  | nil => simp
  | cons a tl ih =>
    have hya : cy a < h := hy a (List.mem_cons_self a tl)
    have hxa : cx a < w := hx a (List.mem_cons_self a tl)
    have hytl : ∀ b ∈ tl, cy b < h := fun b hb => hy b (List.mem_cons_of_mem a hb)
    have hxtl : ∀ b ∈ tl, cx b < w := fun b hb => hx b (List.mem_cons_of_mem a hb)
    simp only [List.countP_cons]
    have hsplit : ∀ y x, (if mask y x then
        (tl.countP (fun b => decide (cy b = y ∧ cx b = x)) +
          if (decide (cy a = y ∧ cx a = x)) = true then 1 else 0) else 0) =
        (if mask y x then tl.countP (fun b => decide (cy b = y ∧ cx b = x))
         else 0) +
        (if cy a = y ∧ cx a = x then (if mask y x then 1 else 0) else 0) := by
      intro y x
      by_cases hm : mask y x
      · by_cases hhit : cy a = y ∧ cx a = x
        · simp [hm, hhit]
        · simp [hm, hhit]
      · by_cases hhit : cy a = y ∧ cx a = x
        · simp [hm, hhit]
        · simp [hm, hhit]
    calc Finset.sum (Finset.range h) (fun y =>
        Finset.sum (Finset.range w) (fun x =>
          if mask y x then
            (tl.countP (fun b => decide (cy b = y ∧ cx b = x)) +
              if (decide (cy a = y ∧ cx a = x)) = true then 1 else 0)
          else 0))
        = Finset.sum (Finset.range h) (fun y =>
            Finset.sum (Finset.range w) (fun x =>
              (if mask y x then tl.countP (fun b => decide (cy b = y ∧ cx b = x)) else 0) +
              (if cy a = y ∧ cx a = x then (if mask y x then 1 else 0) else 0))) := by
          apply Finset.sum_congr rfl
          intro y _
          apply Finset.sum_congr rfl
          intro x _
          exact hsplit y x
      _ = Finset.sum (Finset.range h) (fun y =>
            Finset.sum (Finset.range w) (fun x =>
              if mask y x then tl.countP (fun b => decide (cy b = y ∧ cx b = x)) else 0)) +
          Finset.sum (Finset.range h) (fun y =>
            Finset.sum (Finset.range w) (fun x =>
              if cy a = y ∧ cx a = x then (if mask y x then 1 else 0) else 0)) := by
          rw [← Finset.sum_add_distrib]
          apply Finset.sum_congr rfl
          intro y _
          rw [Finset.sum_add_distrib]
      _ = tl.countP (fun b => mask (cy b) (cx b)) +
          (if mask (cy a) (cx a) then 1 else 0) := by
          rw [ih hytl hxtl, grid_indicator h w (cy a) (cx a) hya hxa]

/-! ## Histogram fold characterization -/

theorem hist_fold_aux (g : ℕ → ℕ) (vals : List ℕ) (nBins : ℕ)
    (h0 : ℕ → ℕ) (t : ℕ) :
    vals.foldl (fun hst v =>
      if g v < nBins then (fun t2 => if t2 = g v then hst (g v) + 1 else hst t2)
      else hst) h0 t =
      h0 t + (if t < nBins then vals.countP (fun v => g v == t) else 0) := by
  induction vals generalizing h0 with
  | nil => simp
  | cons a tl ih =>
    simp only [List.foldl_cons, List.countP_cons]
    by_cases hga : g a < nBins
    · rw [if_pos hga, ih]
      by_cases hat : t = g a
      · subst hat
        simp [hga]
        omega
      · have hbeq : (g a == t) = false := by
          simp only [beq_eq_false_iff_ne, ne_eq]
          intro hcon
          exact hat hcon.symm
        by_cases ht : t < nBins
        · simp [hat, hbeq, ht]
        · simp [hat, ht]
    · rw [if_neg hga, ih]
      by_cases ht : t < nBins
      · have hbeq : (g a == t) = false := by
          simp only [beq_eq_false_iff_ne, ne_eq]
          intro hcon
          omega
        simp [ht, hbeq]
      · simp [ht]

theorem hist_uncompressed_apply (photons : List ℕ) (nBins : ℕ) (t : ℕ) :
    _load_histogram_uncompressed photons nBins (fun _ => 0) t =
      (if t < nBins then
        photons.countP (fun p => photon_to_tau p == t) else 0) := by
  have h := hist_fold_aux photon_to_tau photons nBins (fun _ => 0) t
  rw [Nat.zero_add] at h
  exact h

theorem hist_compressed_apply (stream : List ℕ) (nBins : ℕ) (t : ℕ) :
    _load_histogram_compressed stream nBins (fun _ => 0) t =
      (if t < nBins then stream.countP (fun v => v == t) else 0) := by
  have h := hist_fold_aux (fun v => v) stream nBins (fun _ => 0) t
  rw [Nat.zero_add] at h
  exact h

/-! ## FLIM fold characterizations -/

theorem flim_fold_snd (photons : List ℕ) (reg : ℤ × ℤ) (ydim xdim : ℕ)
    (st0 : (ℕ → ℕ → ℚ) × (ℕ → ℕ → ℕ)) :
    (photons.foldl (flim_photon_step reg ydim xdim) st0).2 =
      load_array_raw_siff_registered photons ydim xdim reg st0.2 := by
  induction photons generalizing st0 with
  | nil => simp [load_array_raw_siff_registered]
  | cons p tl ih =>
    simp only [List.foldl_cons, load_array_raw_siff_registered] at *
    rw [ih]
    rfl

theorem flim_fold_fst (photons : List ℕ) (reg : ℤ × ℤ) (ydim xdim : ℕ)
    (st0 : (ℕ → ℕ → ℚ) × (ℕ → ℕ → ℕ)) (y x : ℕ) :
    (photons.foldl (flim_photon_step reg ydim xdim) st0).1 y x =
      st0.1 y x + (photons.map (fun p =>
        if regCoord (photon_to_y_base p) reg.1 ydim = y ∧
           regCoord (photon_to_x_base p) reg.2 xdim = x
        then (photon_to_tau p : ℚ) else 0)).sum := by
  induction photons generalizing st0 with
  | nil => simp
  | cons p tl ih =>
    simp only [List.foldl_cons, List.map_cons, List.sum_cons]
    rw [ih]
    by_cases hp : regCoord (photon_to_y_base p) reg.1 ydim = y ∧
                  regCoord (photon_to_x_base p) reg.2 xdim = x
    · have hstep : (flim_photon_step reg ydim xdim st0 p).1 y x =
          st0.1 y x + (photon_to_tau p : ℚ) := by
        simp only [flim_photon_step]
        rw [if_pos ⟨hp.1.symm, hp.2.symm⟩, hp.1, hp.2]
      rw [hstep, if_pos hp]
      ring
    · have hstep : (flim_photon_step reg ydim xdim st0 p).1 y x =
          st0.1 y x := by
        simp only [flim_photon_step]
        rw [if_neg]
        intro hcon
        exact hp ⟨hcon.1.symm, hcon.2.symm⟩
      rw [hstep, if_neg hp]
      ring

/-! ## Compressed-strip cursor characterizations -/

theorem take_succ_sum (data : List ℕ) (N : ℕ) :
    (data.take (N + 1)).sum = (data.take N).sum + data.getD N 0 := by
  rw [List.take_succ, List.sum_append]
  congr 1
  rcases hg : data[N]? with _ | a
  · simp [List.getD_eq_getElem?_getD, hg]
  · simp [List.getD_eq_getElem?_getD, hg]

theorem pixel_index_inj (w k j : ℕ) (hdiv : k / w = j / w)
    (hmod : k % w = j % w) : k = j := by
  have h1 := Nat.div_add_mod k w
  have h2 := Nat.div_add_mod j w
  rw [hdiv, hmod] at h1
  omega

theorem comp_flim_fold_char (data stream : List ℕ) (xdim N : ℕ) :
    ((List.range N).foldl (comp_flim_step data stream xdim)
        (0, fun _ _ => 0)).1 = (data.take N).sum ∧
    ∀ k, ((List.range N).foldl (comp_flim_step data stream xdim)
        (0, fun _ _ => 0)).2 (k / xdim) (k % xdim) =
      if k < N then pixelWindowQ data stream k else 0 := by
  induction N with
  | zero => constructor <;> simp
  | succ N ih =>
    rw [List.range_succ, List.foldl_append, List.foldl_cons, List.foldl_nil]
    constructor
    · show (comp_flim_step data stream xdim _ N).1 = _
      simp only [comp_flim_step]
      rw [ih.1, take_succ_sum]
    · intro k
      show (comp_flim_step data stream xdim _ N).2 (k / xdim) (k % xdim) = _
      simp only [comp_flim_step]
      by_cases hk : k / xdim = N / xdim ∧ k % xdim = N % xdim
      · have hkN : k = N := pixel_index_inj xdim k N hk.1 hk.2
        subst hkN
        rw [if_pos ⟨rfl, rfl⟩, ih.2 k, if_neg (by omega), if_pos (by omega),
          ih.1]
        simp [pixelWindowQ]
      · have hkN : ¬ k = N := by
          intro hcon
          subst hcon
          exact hk ⟨rfl, rfl⟩
        rw [if_neg hk, ih.2 k]
        by_cases hlt : k < N
        · rw [if_pos hlt, if_pos (by omega)]
        · rw [if_neg hlt, if_neg (by omega)]

theorem comp_mask_fold_char (mask : ℕ → ℕ → Bool) (data stream : List ℕ)
    (xdim N : ℕ) :
    (List.range N).foldl (comp_mask_step mask data stream xdim) (0, 0, 0) =
      ((data.take N).sum,
       Finset.sum (Finset.range N) (fun k =>
         if mask (k / xdim) (k % xdim)
         then ((pixelWindow16 data stream k : ℕ) : ℚ) else 0),
       Finset.sum (Finset.range N) (fun k =>
         if mask (k / xdim) (k % xdim) then data.getD k 0 else 0)) := by
  induction N with
  | zero => simp
  | succ N ih =>
    rw [List.range_succ, List.foldl_append, List.foldl_cons, List.foldl_nil,
      ih]
    simp only [comp_mask_step]
    rw [take_succ_sum, Finset.sum_range_succ, Finset.sum_range_succ]
    simp [pixelWindow16]

/-! ## Rolling an image versus inversely rolling the mask -/

theorem sum_mask_compressed_eq (mask : ℕ → ℕ → Bool) (data : List ℕ)
    (ydim xdim : ℕ) :
    sum_mask_compressed_siff mask data ydim xdim =
      Finset.sum (Finset.range (ydim * xdim)) (fun k =>
        data.getD k 0 * (if mask (k / xdim) (k % xdim) then 1 else 0)) := by
  unfold sum_mask_compressed_siff
  rw [foldl_add_eq, Nat.zero_add, list_range_map_sum]

theorem sum_mask_compressed_reg_eq (mask : ℕ → ℕ → Bool) (data : List ℕ)
    (ydim xdim : ℕ) (registration : ℤ × ℤ) :
    sum_mask_compressed_siff_registered mask data ydim xdim registration =
      Finset.sum (Finset.range (ydim * xdim)) (fun k =>
        (roll (load_array_compressed_siff data ydim xdim) registration
          ydim xdim) (k / xdim) (k % xdim)
        * (if mask (k / xdim) (k % xdim) then 1 else 0)) := by
  unfold sum_mask_compressed_siff_registered
  rw [foldl_add_eq, Nat.zero_add, list_range_map_sum]

theorem grid_roll_reindex (I : ℕ → ℕ → ℕ) (mask : ℕ → ℕ → Bool)
    (shift : ℤ × ℤ) (h w : ℕ) :
    Finset.sum (Finset.range h) (fun y =>
      Finset.sum (Finset.range w) (fun x =>
        if mask y x then roll I shift h w y x else 0)) =
    Finset.sum (Finset.range h) (fun y =>
      Finset.sum (Finset.range w) (fun x =>
        if roll mask (-shift.1, -shift.2) h w y x then I y x else 0)) := by
  rcases Nat.eq_zero_or_pos h with hh | hh
  · subst hh; simp
  rcases Nat.eq_zero_or_pos w with hw | hw
  · subst hw; simp
  rw [← Finset.sum_product', ← Finset.sum_product']
  apply Finset.sum_nbij'
    (fun p => (regCoord p.1 (-shift.1) h, regCoord p.2 (-shift.2) w))
    (fun p => (regCoord p.1 shift.1 h, regCoord p.2 shift.2 w))
  · intro p hp
    simp only [Finset.mem_product, Finset.mem_range]
    exact ⟨regCoord_lt _ _ _ hh, regCoord_lt _ _ _ hw⟩
  · intro p hp
    simp only [Finset.mem_product, Finset.mem_range]
    exact ⟨regCoord_lt _ _ _ hh, regCoord_lt _ _ _ hw⟩
  · intro p hp
    simp only [Finset.mem_product, Finset.mem_range] at hp
    have h1 : regCoord (regCoord p.1 (-shift.1) h) shift.1 h = p.1 := by
      have := regCoord_cancel p.1 (-shift.1) h hh
      rw [neg_neg] at this
      rw [this, Nat.mod_eq_of_lt hp.1]
    have h2 : regCoord (regCoord p.2 (-shift.2) w) shift.2 w = p.2 := by
      have := regCoord_cancel p.2 (-shift.2) w hw
      rw [neg_neg] at this
      rw [this, Nat.mod_eq_of_lt hp.2]
    simp [h1, h2]
  · intro p hp
    simp only [Finset.mem_product, Finset.mem_range] at hp
    have h1 : regCoord (regCoord p.1 shift.1 h) (-shift.1) h = p.1 := by
      rw [regCoord_cancel p.1 shift.1 h hh, Nat.mod_eq_of_lt hp.1]
    have h2 : regCoord (regCoord p.2 shift.2 w) (-shift.2) w = p.2 := by
      rw [regCoord_cancel p.2 shift.2 w hw, Nat.mod_eq_of_lt hp.2]
    simp [h1, h2]
  · intro p hp
    simp only [Finset.mem_product, Finset.mem_range] at hp
    have hmask : roll mask (-shift.1, -shift.2) h w
        (regCoord p.1 (-shift.1) h) (regCoord p.2 (-shift.2) w) =
        mask p.1 p.2 := by
      simp only [roll, neg_neg]
      have h1 : regCoord (regCoord p.1 (-shift.1) h) shift.1 h = p.1 := by
        have := regCoord_cancel p.1 (-shift.1) h hh
        rw [neg_neg] at this
        rw [this, Nat.mod_eq_of_lt hp.1]
      have h2 : regCoord (regCoord p.2 (-shift.2) w) shift.2 w = p.2 := by
        have := regCoord_cancel p.2 (-shift.2) w hw
        rw [neg_neg] at this
        rw [this, Nat.mod_eq_of_lt hp.2]
      rw [h1, h2]
    rw [hmask]
    simp only [roll]

/-! ## Remaining helper lemmas -/

theorem grid_index_div (y x w : ℕ) (hx : x < w) : (y * w + x) / w = y := by
  have hw : 0 < w := by omega
  have hcomm : y * w + x = x + w * y := by ring
  rw [hcomm, Nat.add_mul_div_left _ _ hw, Nat.div_eq_of_lt hx, Nat.zero_add]

theorem grid_index_mod (y x w : ℕ) (hx : x < w) : (y * w + x) % w = x := by
  have hcomm : y * w + x = x + w * y := by ring
  rw [hcomm, Nat.add_mul_mod_self_left, Nat.mod_eq_of_lt hx]

theorem grid_index_lt (y x h w : ℕ) (hy : y < h) (hx : x < w) :
    y * w + x < h * w := by
  have hlt : y * w + x < (y + 1) * w := by
    have hexp : (y + 1) * w = y * w + w := by ring
    omega
  have hle : (y + 1) * w ≤ h * w :=
    Nat.mul_le_mul_right w (Nat.succ_le_of_lt hy)
  exact Nat.lt_of_lt_of_le hlt hle

theorem sum_range_getD (data : List ℕ) (N : ℕ) :
    Finset.sum (Finset.range N) (fun k => data.getD k 0) =
      (data.take N).sum := by
  induction N with
  | zero => simp
  | succ n ih => rw [Finset.sum_range_succ, ih, ← take_succ_sum]

theorem dispatchFinish_succ (p : ℕ) (res : Bool × Rdr)
    (h : (dispatchFinish p res).1 = true) :
    (dispatchFinish p res).2.pos = p := by
  rcases res with ⟨ok, rk⟩
  cases ok
  · simp [dispatchFinish] at h
  · simp [dispatchFinish]

theorem dispatchFinish_fail (p : ℕ) (r : Rdr) :
    dispatchFinish p (false, r) = (false, r) := by
  simp [dispatchFinish]

theorem mask_raw_flim_fold_char (mask : ℕ → ℕ → Bool) (photons : List ℕ)
    (ydim xdim : ℕ) (q0 : ℚ) (n0 : ℕ) :
    photons.foldl (fun (st : ℚ × ℕ) p =>
      let y := regCoord (photon_to_y_base p) 0 ydim
      let x := regCoord (photon_to_x_base p) 0 xdim
      (st.1 + (if mask y x then (photon_to_tau p : ℚ) else 0),
       st.2 + (if mask y x then 1 else 0))) (q0, n0) =
      (q0 + maskedTauSumRaw mask photons ydim xdim,
       n0 + maskedCountRaw mask photons ydim xdim) := by
  induction photons generalizing q0 n0 with
  | nil => simp [maskedTauSumRaw, maskedCountRaw]
  | cons p tl ih =>
    simp only [List.foldl_cons, ih, maskedTauSumRaw, maskedCountRaw,
      List.map_cons, List.sum_cons, List.countP_cons]
    by_cases hm : mask (regCoord (photon_to_y_base p) 0 ydim)
                       (regCoord (photon_to_x_base p) 0 xdim)
    · simp only [hm, if_true, if_pos, Prod.mk.injEq]
      constructor
      · ring
      · omega
    · simp only [hm, if_false, Prod.mk.injEq]
      constructor
      · simp
      · simp [hm]

theorem sum_mask_emp_comp_char (mask : ℕ → ℕ → Bool)
    (data stream : List ℕ) (ydim xdim : ℕ) :
    _sum_mask_empirical_intensity_compressed mask data stream ydim xdim =
      (fdiv (maskedTauSumComp mask data stream ydim xdim)
            (maskedCountComp mask data ydim xdim),
       maskedCountComp mask data ydim xdim) := by
  unfold _sum_mask_empirical_intensity_compressed
  rw [comp_mask_fold_char]
  simp [maskedTauSumComp, maskedCountComp]

theorem sum_mask_emp_raw_char (mask : ℕ → ℕ → Bool) (photons : List ℕ)
    (ydim xdim : ℕ) :
    _sum_mask_empirical_intensity_raw mask photons ydim xdim =
      (fdiv (maskedTauSumRaw mask photons ydim xdim)
            (maskedCountRaw mask photons ydim xdim),
       maskedCountRaw mask photons ydim xdim) := by
  unfold _sum_mask_empirical_intensity_raw
  rw [mask_raw_flim_fold_char]
  simp

theorem flim_intensity_component (fd : FrameData) (ydim xdim : ℕ) :
    (load_flim_arrays fd ydim xdim).2 = load_array_intensity fd ydim xdim := by
  cases fd with
  | raw photons =>
    have h := flim_fold_snd photons (0, 0) ydim xdim
      (fun _ _ => 0, fun _ _ => 0)
    show (photons.foldl (flim_photon_step (0, 0) ydim xdim)
      (fun _ _ => 0, fun _ _ => 0)).2 = _
    rw [h]
    rfl
  | compressed data stream => rfl

theorem flim_intensity_component_reg (fd : FrameData) (ydim xdim : ℕ)
    (shift : ℤ × ℤ) :
    (load_flim_arrays_registered fd ydim xdim shift).2 =
      load_array_intensity_registered fd ydim xdim shift := by
  cases fd with
  | raw photons =>
    have h := flim_fold_snd photons shift ydim xdim
      (fun _ _ => 0, fun _ _ => 0)
    show (photons.foldl (flim_photon_step shift ydim xdim)
      (fun _ _ => 0, fun _ _ => 0)).2 = _
    rw [h]
    rfl
  | compressed data stream => rfl

/-! ## Claim theorems -/

/-- C2: for every frame (RAW or COMPRESSED) and every registration
shift `(dy, dx)`, the registered intensity image is the cyclic roll of
the unregistered one: for every in-bounds output pixel `(y, x)`,
`registered[(y + dy) mod h, (x + dx) mod w] = unregistered[y, x]`. -/
theorem c2_registered_is_cyclic_roll (fd : FrameData) (ydim xdim : ℕ)
    (shift : ℤ × ℤ) (y x : ℕ) (hy : y < ydim) (hx : x < xdim) :
    load_array_intensity_registered fd ydim xdim shift
      (regCoord y shift.1 ydim) (regCoord x shift.2 xdim) =
    load_array_intensity fd ydim xdim y x := by
  have hdy : 0 < ydim := by omega
  have hdx : 0 < xdim := by omega
  cases fd with
  | raw photons =>
    show load_array_raw_siff_registered photons ydim xdim shift
        (fun _ _ => 0) _ _ = _
    rw [load_raw_reg_apply]
    show _ = load_array_raw_siff photons ydim xdim (fun _ _ => 0) y x
    rw [load_raw_eq_registered_zero, load_raw_reg_apply]
    congr 1
    unfold rawCount
    apply List.countP_congr
    intro p _
    simp only [decide_eq_true_eq]
    constructor
    · intro hp
      exact ⟨(regCoord_eq_iff (photon_to_y_base p) y shift.1 ydim hy).mp hp.1,
             (regCoord_eq_iff (photon_to_x_base p) x shift.2 xdim hx).mp hp.2⟩
    · intro hp
      exact ⟨(regCoord_eq_iff (photon_to_y_base p) y shift.1 ydim hy).mpr hp.1,
             (regCoord_eq_iff (photon_to_x_base p) x shift.2 xdim hx).mpr hp.2⟩
  | compressed data stream =>
    show roll (load_array_compressed_siff data ydim xdim) shift ydim xdim
        _ _ = _
    unfold roll
    rw [regCoord_cancel y shift.1 ydim hdy, regCoord_cancel x shift.2 xdim hdx,
      Nat.mod_eq_of_lt hy, Nat.mod_eq_of_lt hx]
    rfl

/-- Witness for C2 at a concrete one-photon raw frame with shift
`(1, 1)` on a 2 by 2 grid. -/
theorem c2_registered_is_cyclic_roll_witness :
    load_array_intensity_registered (FrameData.raw [0]) 2 2 (1, 1)
      (regCoord 0 ((1, 1) : ℤ × ℤ).1 2) (regCoord 0 ((1, 1) : ℤ × ℤ).2 2) =
    load_array_intensity (FrameData.raw [0]) 2 2 0 0 :=
  c2_registered_is_cyclic_roll (FrameData.raw [0]) 2 2 (1, 1) 0 0
    (by decide) (by decide)

/-- C6: for every decoded compressed frame, mask and shift, the masked
intensity reduction obtained by rolling the image by `(+dy, +dx)` and
applying the unshifted mask (the compressed intensity mask kernel)
equals the one obtained by rolling the mask by `(-dy, -dx)` and
reducing the unshifted image (the compressed FLIM mask kernel): the
cyclic roll commutes with pointwise mask application, so the two
kernels produce identical sums. -/
theorem c6_mask_roll_eq_image_roll (mask : ℕ → ℕ → Bool)
    (data stream : List ℕ) (ydim xdim : ℕ) (registration : ℤ × ℤ) :
    sum_mask_compressed_siff_registered mask data ydim xdim registration =
      (_sum_mask_empirical_intensity_compressed_registered mask data stream
        ydim xdim registration).2 := by
  rw [sum_mask_compressed_reg_eq]
  unfold _sum_mask_empirical_intensity_compressed_registered
  rw [sum_mask_emp_comp_char]
  show _ = maskedCountComp
    (roll mask (-registration.1, -registration.2) ydim xdim) data ydim xdim
  unfold maskedCountComp
  calc Finset.sum (Finset.range (ydim * xdim)) (fun k =>
        (roll (load_array_compressed_siff data ydim xdim) registration
          ydim xdim) (k / xdim) (k % xdim)
        * (if mask (k / xdim) (k % xdim) then 1 else 0))
      = Finset.sum (Finset.range (ydim * xdim)) (fun k =>
          (fun y x => if mask y x then
            (roll (load_array_compressed_siff data ydim xdim) registration
              ydim xdim) y x else 0) (k / xdim) (k % xdim)) := by
        apply Finset.sum_congr rfl
        intro k _
        by_cases hm : mask (k / xdim) (k % xdim) <;> simp [hm]
    _ = Finset.sum (Finset.range ydim) (fun y =>
          Finset.sum (Finset.range xdim) (fun x =>
            if mask y x then
              (roll (load_array_compressed_siff data ydim xdim) registration
                ydim xdim) y x else 0)) :=
        sum_flat_grid ydim xdim (fun y x =>
          if mask y x then
            (roll (load_array_compressed_siff data ydim xdim) registration
              ydim xdim) y x else 0)
    _ = Finset.sum (Finset.range ydim) (fun y =>
          Finset.sum (Finset.range xdim) (fun x =>
            if roll mask (-registration.1, -registration.2) ydim xdim y x
            then load_array_compressed_siff data ydim xdim y x else 0)) :=
        grid_roll_reindex (load_array_compressed_siff data ydim xdim) mask
          registration ydim xdim
    _ = Finset.sum (Finset.range (ydim * xdim)) (fun k =>
          (fun y x =>
            if roll mask (-registration.1, -registration.2) ydim xdim y x
            then load_array_compressed_siff data ydim xdim y x else 0)
          (k / xdim) (k % xdim)) :=
        (sum_flat_grid ydim xdim (fun y x =>
          if roll mask (-registration.1, -registration.2) ydim xdim y x
          then load_array_compressed_siff data ydim xdim y x else 0)).symm
    _ = Finset.sum (Finset.range (ydim * xdim)) (fun k =>
          if roll mask (-registration.1, -registration.2) ydim xdim
              (k / xdim) (k % xdim)
          then data.getD k 0 else 0) := by
        apply Finset.sum_congr rfl
        intro k _
        have hidx : k / xdim * xdim + k % xdim = k := by
          rw [Nat.mul_comm]
          exact Nat.div_add_mod k xdim
        by_cases hm : roll mask (-registration.1, -registration.2) ydim xdim
            (k / xdim) (k % xdim)
        · simp only [hm, if_true]
          unfold load_array_compressed_siff
          rw [hidx]
        · simp [hm]

/-- C5: for every frame (RAW or COMPRESSED) and every registration
option, the intensity array produced by `get_frames_flim` is equal,
element for element, to the array produced by
`get_frames_intensity`. -/
theorem c5_flim_intensity_eq_intensity (file : SiffFile) (frames : List ℕ)
    (registration : Option RegMap) :
    Except.map Prod.snd (get_frames_flim file frames registration) =
      get_frames_intensity file frames registration := by
  unfold get_frames_flim get_frames_intensity
  by_cases hb : _check_frames_in_bounds frames file
  · rw [if_neg (by simp [hb]), if_neg (by simp [hb])]
    cases hdims : imageDimsOf file frames with
    | none => rfl
    | some d =>
      cases hreg : _check_registration registration frames with
      | error e => rfl
      | ok o =>
        cases o with
        | none =>
          simp only [Except.map]
          congr 1
          apply List.map_congr_left
          intro i _
          exact flim_intensity_component _ _ _
        | some r =>
          simp only [Except.map]
          congr 1
          apply List.map_congr_left
          intro i _
          exact flim_intensity_component_reg _ _ _ _
  · rw [if_pos (by simp [hb]), if_pos (by simp [hb])]
    rfl

/-- C4 counterexample: two photons with tau values 3 and 5 in a fully
masked 1 by 1 raw frame.  The claim predicts a returned tau accumulator
of 3 + 5 = 8 left undivided; the kernel divides by the intensity sum 2
inside and returns 4. -/
theorem c4_counterexample :
    (_sum_mask_empirical_intensity_raw (fun _ _ => true) [3, 5] 1 1).1 =
      some (4 : ℚ) ∧
    (_sum_mask_empirical_intensity_raw (fun _ _ => true) [3, 5] 1 1).1 ≠
      some ((3 : ℚ) + 5) := by
  have hchar := sum_mask_emp_raw_char (fun _ _ => true) [3, 5] 1 1
  have htau3 : photon_to_tau 3 = 3 := by decide
  have htau5 : photon_to_tau 5 = 5 := by decide
  have hsum : maskedTauSumRaw (fun _ _ => true) [3, 5] 1 1 = 8 := by
    unfold maskedTauSumRaw
    simp only [List.map_cons, List.map_nil, List.sum_cons, List.sum_nil,
      if_true, htau3, htau5]
    norm_num
  have hcount : maskedCountRaw (fun _ _ => true) [3, 5] 1 1 = 2 := by decide
  have hval : (_sum_mask_empirical_intensity_raw (fun _ _ => true)
      [3, 5] 1 1).1 = some (4 : ℚ) := by
    rw [hchar]
    show fdiv (maskedTauSumRaw (fun _ _ => true) [3, 5] 1 1)
      (maskedCountRaw (fun _ _ => true) [3, 5] 1 1) = _
    rw [hsum, hcount]
    unfold fdiv
    norm_num
  constructor
  · exact hval
  · rw [hval]
    intro hcon
    rw [Option.some.injEq] at hcon
    norm_num at hcon

/-- C4 (amended): the masked FLIM reduction kernels return the pair
(masked tau sum divided by the masked intensity sum, masked intensity
sum) — the division is performed inside the kernel (`lifetime_sum /=
intensity_sum`), so the caller receives the empirical mean (non-finite
when the masked intensity is zero), not the undivided tau sum. -/
theorem c4_masked_flim_divides_in_kernel (mask : ℕ → ℕ → Bool)
    (photons data stream : List ℕ) (ydim xdim : ℕ) :
    _sum_mask_empirical_intensity_raw mask photons ydim xdim =
      (fdiv (maskedTauSumRaw mask photons ydim xdim)
            (maskedCountRaw mask photons ydim xdim),
       maskedCountRaw mask photons ydim xdim) ∧
    _sum_mask_empirical_intensity_compressed mask data stream ydim xdim =
      (fdiv (maskedTauSumComp mask data stream ydim xdim)
            (maskedCountComp mask data ydim xdim),
       maskedCountComp mask data ydim xdim) :=
  ⟨sum_mask_emp_raw_char mask photons ydim xdim,
   sum_mask_emp_comp_char mask data stream ydim xdim⟩

/-- C7: an empty registration table behaves exactly like no
registration; a non-empty table lacking an entry for a requested frame
makes the call fail with the registration-frames-missing error (for a
request that passes the bounds and shape checks, which run first), so
no output is produced. -/
theorem c7_registration_table_semantics :
    (∀ (file : SiffFile) (frames : List ℕ),
      get_frames_intensity file frames (some ([] : RegMap)) =
        get_frames_intensity file frames none) ∧
    (∀ (file : SiffFile) (frames : List ℕ) (reg : RegMap),
      reg ≠ [] →
      (∃ i ∈ frames, List.lookup i reg = none) →
      _check_frames_in_bounds frames file = true →
      (imageDimsOf file frames).isSome = true →
      get_frames_intensity file frames (some reg) =
        .error .registrationFramesMissing) := by
  constructor
  · intro file frames
    have h : _check_registration (some ([] : RegMap)) frames =
        _check_registration none frames := rfl
    unfold get_frames_intensity
    rw [h]
  · intro file frames reg hne hmiss hb hdims
    unfold get_frames_intensity
    rw [if_neg (by simp [hb])]
    obtain ⟨d, hd⟩ := Option.isSome_iff_exists.mp hdims
    rw [hd]
    have hie : reg.isEmpty = false := by
      cases reg
      · exact absurd rfl hne
      · rfl
    have hall : frames.all (fun k => (List.lookup k reg).isSome) = false := by
      obtain ⟨i, hi, hnone⟩ := hmiss
      cases hv : frames.all (fun k => (List.lookup k reg).isSome)
      · rfl
      · rw [List.all_eq_true] at hv
        have hsome := hv i hi
        rw [hnone] at hsome
        simp at hsome
    have hreg : _check_registration (some reg) frames =
        .error .registrationFramesMissing := by
      show (if reg.isEmpty = true then Except.ok none
            else if (frames.all fun k => (List.lookup k reg).isSome) = true
            then Except.ok (some reg)
            else Except.error ReaderError.registrationFramesMissing) = _
      rw [if_neg (by simp [hie]), if_neg (by simp [hall])]
    rw [hreg]

/-- Witness for C7 on a one-frame file: the empty table equals no
registration, and the table containing only frame 1 makes a request
for frame 0 fail with the registration error. -/
theorem c7_registration_table_semantics_witness :
    (get_frames_intensity
        ⟨[⟨1, 1, FrameData.raw [], 0, 0⟩], some (1, 1), 1⟩ [0]
        (some ([] : RegMap)) =
      get_frames_intensity
        ⟨[⟨1, 1, FrameData.raw [], 0, 0⟩], some (1, 1), 1⟩ [0] none) ∧
    get_frames_intensity
        ⟨[⟨1, 1, FrameData.raw [], 0, 0⟩], some (1, 1), 1⟩ [0]
        (some [(1, ((0 : ℤ), (0 : ℤ)))]) =
      .error .registrationFramesMissing :=
  ⟨c7_registration_table_semantics.1 _ [0],
   c7_registration_table_semantics.2 _ [0] [(1, ((0 : ℤ), (0 : ℤ)))]
     (by decide) ⟨0, by decide, by decide⟩ (by decide) (by decide)⟩

/-- C9 (amended): when a requested frame index is out of range, every
bounds-checked frame-list call (`get_frames_intensity`,
`get_frames_flim`, `get_histogram`, `sum_roi_flat`, the timestamp
accessors) returns the dimensions incorrect-frames error — but
`get_appended_text` performs no bounds check, indexes the IFD vector
directly and panics (modelled by `none`) instead of returning an
error. -/
theorem c9_out_of_range (file : SiffFile) (frames : List ℕ)
    (hoob : ∃ i ∈ frames, file.frames.length ≤ i) :
    (∀ registration, get_frames_intensity file frames registration =
      .error .dimensionsIncorrectFrames) ∧
    (∀ registration, get_frames_flim file frames registration =
      .error .dimensionsIncorrectFrames) ∧
    get_histogram file frames = .error .dimensionsIncorrectFrames ∧
    (∀ roi registration, sum_roi_flat file roi frames registration =
      .error .dimensionsIncorrectFrames) ∧
    get_experiment_timestamps file frames =
      .error .dimensionsIncorrectFrames ∧
    get_appended_text file frames = none := by
  have hb : _check_frames_in_bounds frames file = false := by
    unfold _check_frames_in_bounds
    obtain ⟨i, hi, hle⟩ := hoob
    cases hv : frames.all (fun f => f < file.frames.length)
    · rfl
    · rw [List.all_eq_true] at hv
      have hcon := hv i hi
      simp only [decide_eq_true_eq] at hcon
      omega
  have hb2 : frames.all (fun f => f < file.frames.length) = false := hb
  refine ⟨?_, ?_, ?_, ?_, ?_, ?_⟩
  · intro registration
    unfold get_frames_intensity
    rw [if_pos (by simp [hb])]
  · intro registration
    unfold get_frames_flim
    rw [if_pos (by simp [hb])]
  · unfold get_histogram
    rw [if_pos (by simp [hb])]
  · intro roi registration
    unfold sum_roi_flat
    rw [if_pos (by simp [hb])]
  · unfold get_experiment_timestamps
    rw [if_pos (by simp [hb])]
  · unfold get_appended_text
    rw [if_neg (by simp [hb2])]

/-- Witness for the amended C9 on a one-frame file with the
out-of-range request `[1]`. -/
theorem c9_out_of_range_witness :
    get_frames_intensity ⟨[⟨1, 1, FrameData.raw [], 0, 0⟩], some (1, 1), 1⟩
        [1] none = .error .dimensionsIncorrectFrames ∧
    get_appended_text ⟨[⟨1, 1, FrameData.raw [], 0, 0⟩], some (1, 1), 1⟩
        [1] = none :=
  ⟨(c9_out_of_range _ [1] ⟨1, by decide, by decide⟩).1 none,
   (c9_out_of_range ⟨[⟨1, 1, FrameData.raw [], 0, 0⟩], some (1, 1), 1⟩
      [1] ⟨1, by decide, by decide⟩).2.2.2.2.2⟩

/-- C9 counterexample: `get_appended_text` on an out-of-range request
does not return a dimensions error as the claim states — it has no
error channel at all and its unchecked indexing panics (`none`),
unlike `get_frames_intensity` on the same request. -/
theorem c9_counterexample :
    get_appended_text ⟨[⟨1, 1, FrameData.raw [], 0, 0⟩], some (1, 1), 1⟩
        [1] = none ∧
    get_frames_intensity ⟨[⟨1, 1, FrameData.raw [], 0, 0⟩], some (1, 1), 1⟩
        [1] none = .error .dimensionsIncorrectFrames := by
  constructor
  · rfl
  · rfl

/-- C8 counterexample: dispatching on an unknown format-tag value (7)
fails after the seek to the strip, leaving the reader at the strip
offset (10) instead of the starting position (3) — for the intensity
dispatcher `load_array` and the histogram dispatcher `load_histogram`
alike, so the position is not restored on this failure path. -/
theorem c8_counterexample :
    (load_array_pos ⟨10, 8, 1, 1, 7⟩ ⟨3, 100⟩).2.pos = 10 ∧
    (load_histogram_pos ⟨10, 8, 1, 1, 7⟩ ⟨3, 100⟩).2.pos = 10 ∧
    (3 : ℕ) ≠ 10 := by
  constructor
  · rfl
  · constructor
    · rfl
    · decide

/-- C8 (amended): the reader position is restored across `load_array`
and `load_histogram` on the success path; on the failure paths the
position is not restored — dispatching on an unknown format tag leaves
the reader at the strip offset. -/
theorem c8_position_restored_on_success :
    (∀ (ifd : IFDRec) (r : Rdr), (load_array_pos ifd r).1 = true →
      ((load_array_pos ifd r).2).pos = r.pos) ∧
    (∀ (ifd : IFDRec) (r : Rdr), (load_histogram_pos ifd r).1 = true →
      ((load_histogram_pos ifd r).2).pos = r.pos) ∧
    (∀ (ifd : IFDRec) (r : Rdr), ifd.siffTag ≠ 0 → ifd.siffTag ≠ 1 →
      load_array_pos ifd r = (false, ⟨ifd.stripOffset, r.len⟩) ∧
      load_histogram_pos ifd r = (false, ⟨ifd.stripOffset, r.len⟩)) := by
  refine ⟨?_, ?_, ?_⟩
  · intro ifd r h
    exact dispatchFinish_succ _ _ h
  · intro ifd r h
    exact dispatchFinish_succ _ _ h
  · intro ifd r h0 h1
    constructor
    · unfold load_array_pos
      rw [if_neg h0, if_neg h1]
      exact dispatchFinish_fail _ _
    · unfold load_histogram_pos
      rw [if_neg h0, if_neg h1]
      exact dispatchFinish_fail _ _

/-- Witness for the amended C8: a successful raw-strip load from
position 3 ends back at position 3, and the unknown-tag failure is as
stated. -/
theorem c8_position_restored_on_success_witness :
    ((load_array_pos ⟨10, 8, 1, 1, 0⟩ ⟨3, 100⟩).2).pos = (3 : ℕ) ∧
    ((load_histogram_pos ⟨10, 8, 1, 1, 0⟩ ⟨3, 100⟩).2).pos = (3 : ℕ) ∧
    load_array_pos ⟨10, 8, 1, 1, 7⟩ ⟨3, 100⟩ = (false, ⟨10, 100⟩) :=
  ⟨c8_position_restored_on_success.1 ⟨10, 8, 1, 1, 0⟩ ⟨3, 100⟩ (by decide),
   c8_position_restored_on_success.2.1 ⟨10, 8, 1, 1, 0⟩ ⟨3, 100⟩ (by decide),
   (c8_position_restored_on_success.2.2 ⟨10, 8, 1, 1, 7⟩ ⟨3, 100⟩
     (by decide) (by decide)).1⟩

/-- C10: in the pixelwise empirical-lifetime output, a pixel with zero
intensity receives the non-finite result of the unguarded division by
zero, and a pixel with nonzero intensity receives the sum of the tau
values of its photons divided by its photon count — for RAW and
COMPRESSED frames alike (for RAW, provided the pixel photon count does
not wrap the `u16` intensity accumulator). -/
theorem c10_zero_intensity_nan (photons data stream : List ℕ)
    (ydim xdim y x : ℕ) (hy : y < ydim) (hx : x < xdim)
    (hnw : rawCount photons (0, 0) ydim xdim y x < 65536) :
    ((_load_flim_intensity_empirical_uncompressed photons ydim xdim).2 y x
        = 0 →
      (_load_flim_intensity_empirical_uncompressed photons ydim xdim).1 y x
        = none) ∧
    ((_load_flim_intensity_empirical_uncompressed photons ydim xdim).2 y x
        ≠ 0 →
      (_load_flim_intensity_empirical_uncompressed photons ydim xdim).1 y x
        = some (pixelTauSumRaw photons ydim xdim y x /
            (rawCount photons (0, 0) ydim xdim y x : ℚ))) ∧
    ((_load_flim_intensity_empirical_compressed data stream ydim xdim).2 y x
        = 0 →
      (_load_flim_intensity_empirical_compressed data stream ydim xdim).1 y x
        = none) ∧
    ((_load_flim_intensity_empirical_compressed data stream ydim xdim).2 y x
        ≠ 0 →
      (_load_flim_intensity_empirical_compressed data stream ydim xdim).1 y x
        = some (pixelWindowQ data stream (y * xdim + x) /
            (data.getD (y * xdim + x) 0 : ℚ))) := by
  have hsnd : (_load_flim_intensity_empirical_uncompressed photons
      ydim xdim).2 y x = rawCount photons (0, 0) ydim xdim y x % 65536 := by
    show (photons.foldl (flim_photon_step (0, 0) ydim xdim)
      (fun _ _ => 0, fun _ _ => 0)).2 y x = _
    rw [flim_fold_snd, load_raw_reg_apply]
  have hfst : (photons.foldl (flim_photon_step (0, 0) ydim xdim)
      (fun _ _ => 0, fun _ _ => 0)).1 y x =
      pixelTauSumRaw photons ydim xdim y x := by
    rw [flim_fold_fst]
    show (0 : ℚ) + _ = _
    rw [zero_add]
    rfl
  have hone : (_load_flim_intensity_empirical_uncompressed photons
      ydim xdim).1 y x =
      fdiv ((photons.foldl (flim_photon_step (0, 0) ydim xdim)
        (fun _ _ => 0, fun _ _ => 0)).1 y x)
        ((photons.foldl (flim_photon_step (0, 0) ydim xdim)
        (fun _ _ => 0, fun _ _ => 0)).2 y x) := rfl
  have hsnd2 : (photons.foldl (flim_photon_step (0, 0) ydim xdim)
      (fun _ _ => 0, fun _ _ => 0)).2 y x =
      rawCount photons (0, 0) ydim xdim y x % 65536 := hsnd
  have hk := grid_index_lt y x ydim xdim hy hx
  have hkdiv := grid_index_div y x xdim hx
  have hkmod := grid_index_mod y x xdim hx
  have hlife : ((List.range (ydim * xdim)).foldl
      (comp_flim_step data stream xdim) (0, fun _ _ => 0)).2 y x =
      pixelWindowQ data stream (y * xdim + x) := by
    have h := (comp_flim_fold_char data stream xdim (ydim * xdim)).2
      (y * xdim + x)
    rw [hkdiv, hkmod] at h
    rw [h, if_pos hk]
  have hcone : (_load_flim_intensity_empirical_compressed data stream
      ydim xdim).1 y x =
      fdiv (((List.range (ydim * xdim)).foldl
        (comp_flim_step data stream xdim) (0, fun _ _ => 0)).2 y x)
        (data.getD (y * xdim + x) 0) := rfl
  refine ⟨?_, ?_, ?_, ?_⟩
  · intro hz
    rw [hone]
    have hzz : (photons.foldl (flim_photon_step (0, 0) ydim xdim)
        (fun _ _ => 0, fun _ _ => 0)).2 y x = 0 := hz
    rw [hzz]
    unfold fdiv
    simp
  · intro hnz
    rw [hone, hfst, hsnd2, Nat.mod_eq_of_lt hnw]
    have hcz : rawCount photons (0, 0) ydim xdim y x ≠ 0 := by
      intro hcon
      apply hnz
      show (photons.foldl (flim_photon_step (0, 0) ydim xdim)
        (fun _ _ => 0, fun _ _ => 0)).2 y x = 0
      rw [hsnd2, hcon]
    unfold fdiv
    rw [if_neg hcz]
  · intro hz
    rw [hcone]
    have hzz : data.getD (y * xdim + x) 0 = 0 := hz
    rw [hzz]
    unfold fdiv
    simp
  · intro hnz
    rw [hcone, hlife]
    have hcz : data.getD (y * xdim + x) 0 ≠ 0 := hnz
    unfold fdiv
    rw [if_neg hcz]

/-- Witness for C10: one photon with tau 3 in a 1 by 1 raw frame, and
a compressed 1 by 1 frame with intensity 2 and arrival stream
`[7, 9]`. -/
theorem c10_zero_intensity_nan_witness :
    ((_load_flim_intensity_empirical_uncompressed [3] 1 1).2 0 0 ≠ 0 →
      (_load_flim_intensity_empirical_uncompressed [3] 1 1).1 0 0 =
        some (pixelTauSumRaw [3] 1 1 0 0 /
          (rawCount [3] (0, 0) 1 1 0 0 : ℚ))) ∧
    ((_load_flim_intensity_empirical_compressed [2] [7, 9] 1 1).2 0 0 ≠ 0 →
      (_load_flim_intensity_empirical_compressed [2] [7, 9] 1 1).1 0 0 =
        some (pixelWindowQ [2] [7, 9] (0 * 1 + 0) /
          (List.getD [2] (0 * 1 + 0) 0 : ℚ))) :=
  ⟨(c10_zero_intensity_nan [3] [2] [7, 9] 1 1 0 0 (by decide) (by decide)
      (by decide)).2.1,
   (c10_zero_intensity_nan [3] [2] [7, 9] 1 1 0 0 (by decide) (by decide)
      (by decide)).2.2.2⟩

theorem sum_mask_raw_eq_masked_grid (mask : ℕ → ℕ → Bool)
    (photons : List ℕ) (ydim xdim : ℕ) (hy : 0 < ydim) (hx : 0 < xdim)
    (hnw : ∀ y < ydim, ∀ x < xdim,
      rawCount photons (0, 0) ydim xdim y x < 65536) :
    sum_mask_raw_siff mask photons ydim xdim =
      Finset.sum (Finset.range ydim) (fun y =>
        Finset.sum (Finset.range xdim) (fun x =>
          if mask y x then
            load_array_raw_siff photons ydim xdim (fun _ _ => 0) y x
          else 0)) := by
  rw [sum_mask_raw_eq,
    ← countP_grid_partition photons
      (fun p => regCoord (photon_to_y_base p) 0 ydim)
      (fun p => regCoord (photon_to_x_base p) 0 xdim) mask ydim xdim
      (fun p _ => regCoord_lt _ _ _ hy) (fun p _ => regCoord_lt _ _ _ hx)]
  apply Finset.sum_congr rfl
  intro y hyr
  apply Finset.sum_congr rfl
  intro x hxr
  simp only [Finset.mem_range] at hyr hxr
  by_cases hm : mask y x
  · rw [if_pos hm, if_pos hm, load_raw_eq_registered_zero,
      load_raw_reg_apply, Nat.mod_eq_of_lt (hnw y hyr x hxr)]
    rfl
  · rw [if_neg hm, if_neg hm]

theorem sum_mask_comp_eq_masked_grid (mask : ℕ → ℕ → Bool)
    (data : List ℕ) (ydim xdim : ℕ) :
    sum_mask_compressed_siff mask data ydim xdim =
      Finset.sum (Finset.range ydim) (fun y =>
        Finset.sum (Finset.range xdim) (fun x =>
          if mask y x then load_array_compressed_siff data ydim xdim y x
          else 0)) := by
  rw [sum_mask_compressed_eq]
  calc Finset.sum (Finset.range (ydim * xdim)) (fun k =>
        data.getD k 0 * (if mask (k / xdim) (k % xdim) then 1 else 0))
      = Finset.sum (Finset.range (ydim * xdim)) (fun k =>
          (fun y x =>
            if mask y x then load_array_compressed_siff data ydim xdim y x
            else 0) (k / xdim) (k % xdim)) := by
        apply Finset.sum_congr rfl
        intro k _
        have hidx : k / xdim * xdim + k % xdim = k := by
          rw [Nat.mul_comm]
          exact Nat.div_add_mod k xdim
        by_cases hm : mask (k / xdim) (k % xdim)
        · simp only [hm, if_true, mul_one]
          show data.getD k 0 = data.getD (k / xdim * xdim + k % xdim) 0
          rw [hidx]
        · simp [hm]
    _ = Finset.sum (Finset.range ydim) (fun y =>
          Finset.sum (Finset.range xdim) (fun x =>
            if mask y x then load_array_compressed_siff data ydim xdim y x
            else 0)) :=
        sum_flat_grid ydim xdim (fun y x =>
          if mask y x then load_array_compressed_siff data ydim xdim y x
          else 0)

/-- C1 (amended): for a frame with positive dimensions whose `u16`
intensity accumulator does not wrap, `sum_roi_flat` over a singleton
request equals the masked sum of the intensity image returned by
`get_frames_intensity` over the same request. -/
theorem c1_sum_roi_eq_masked_intensity (file : SiffFile) (roi : Roi2)
    (f : ℕ) (fr : Frame) (hfr : file.frames.getD f default = fr)
    (hf : f < file.frames.length)
    (hdims : imageDimsOf file [f] = some (fr.ydim, fr.xdim))
    (hry : roi.ydim = fr.ydim) (hrx : roi.xdim = fr.xdim)
    (hy : 0 < fr.ydim) (hx : 0 < fr.xdim)
    (hnw : NoWrap fr.data fr.ydim fr.xdim) :
    get_frames_intensity file [f] none =
      .ok [load_array_intensity fr.data fr.ydim fr.xdim] ∧
    sum_roi_flat file roi [f] none =
      .ok [Finset.sum (Finset.range fr.ydim) (fun y =>
        Finset.sum (Finset.range fr.xdim) (fun x =>
          if roi.mask y x then
            load_array_intensity fr.data fr.ydim fr.xdim y x
          else 0))] := by
  have hb : _check_frames_in_bounds [f] file = true := by
    unfold _check_frames_in_bounds
    simp [hf]
  constructor
  · unfold get_frames_intensity
    rw [if_neg (by simp [hb]), hdims]
    show Except.ok [load_array_intensity (file.frames.getD f default).data
      (file.frames.getD f default).ydim (file.frames.getD f default).xdim]
      = _
    rw [hfr]
  · unfold sum_roi_flat
    rw [if_neg (by simp [hb]), hdims]
    show (if (fr.ydim, fr.xdim) ≠ (roi.ydim, roi.xdim) then
        Except.error ReaderError.dimensionsMismatched
      else Except.ok [sum_intensity_mask roi.mask
        (file.frames.getD f default).data (file.frames.getD f default).ydim
        (file.frames.getD f default).xdim]) = _
    rw [if_neg (by simp [hry, hrx]), hfr]
    congr 1
    rw [List.cons.injEq]
    refine ⟨?_, rfl⟩
    cases hdata : fr.data with
    | raw photons =>
      show sum_mask_raw_siff roi.mask photons fr.ydim fr.xdim = _
      rw [hdata] at hnw
      exact sum_mask_raw_eq_masked_grid roi.mask photons fr.ydim fr.xdim
        hy hx hnw
    | compressed data stream =>
      exact sum_mask_comp_eq_masked_grid roi.mask data fr.ydim fr.xdim

/-- Witness for the amended C1: a one-photon raw frame on a 1 by 1
grid with the all-true region of interest. -/
theorem c1_sum_roi_eq_masked_intensity_witness :
    get_frames_intensity ⟨[⟨1, 1, FrameData.raw [3], 0, 0⟩], some (1, 1), 1⟩
        [0] none =
      .ok [load_array_intensity (FrameData.raw [3]) 1 1] ∧
    sum_roi_flat ⟨[⟨1, 1, FrameData.raw [3], 0, 0⟩], some (1, 1), 1⟩
        ⟨1, 1, fun _ _ => true⟩ [0] none =
      .ok [Finset.sum (Finset.range 1) (fun y =>
        Finset.sum (Finset.range 1) (fun x =>
          if (fun _ _ => true : ℕ → ℕ → Bool) y x then
            load_array_intensity (FrameData.raw [3]) 1 1 y x
          else 0))] :=
  c1_sum_roi_eq_masked_intensity
    ⟨[⟨1, 1, FrameData.raw [3], 0, 0⟩], some (1, 1), 1⟩
    ⟨1, 1, fun _ _ => true⟩ 0 ⟨1, 1, FrameData.raw [3], 0, 0⟩
    rfl (by decide) rfl rfl rfl (by decide) (by decide)
    (fun y _ x _ =>
      Nat.lt_of_le_of_lt (List.countP_le_length _) (by norm_num))

/-- C1 counterexample: a raw 1 by 1 frame with 65536 photons on its
single pixel.  `sum_roi_flat` accumulates into `u64` and reports
65536, while the `u16` intensity image returned by
`get_frames_intensity` wraps to 0, so the masked intensity sum is 0
and the claimed equality fails. -/
theorem c1_counterexample :
    sum_roi_flat ⟨[⟨1, 1, FrameData.raw (List.replicate 65536 0), 0, 0⟩],
        some (1, 1), 1⟩ ⟨1, 1, fun _ _ => true⟩ [0] none = .ok [65536] ∧
    get_frames_intensity ⟨[⟨1, 1, FrameData.raw (List.replicate 65536 0),
        0, 0⟩], some (1, 1), 1⟩ [0] none =
      .ok [load_array_intensity (FrameData.raw (List.replicate 65536 0))
        1 1] ∧
    Finset.sum (Finset.range 1) (fun y =>
      Finset.sum (Finset.range 1) (fun x =>
        if (fun _ _ => true : ℕ → ℕ → Bool) y x then
          load_array_intensity (FrameData.raw (List.replicate 65536 0))
            1 1 y x
        else 0)) = 0 ∧
    (65536 : ℕ) ≠ 0 := by
  have hcnt : rawCount (List.replicate 65536 0) (0, 0) 1 1 0 0 = 65536 := by
    unfold rawCount
    rw [List.countP_eq_length.mpr, List.length_replicate]
    intro a ha
    rw [List.eq_of_mem_replicate ha]
    decide
  have hmask : sum_mask_raw_siff (fun _ _ => true)
      (List.replicate 65536 0) 1 1 = 65536 := by
    rw [sum_mask_raw_eq, List.countP_eq_length.mpr, List.length_replicate]
    intro a _
    rfl
  have hload : load_array_intensity
      (FrameData.raw (List.replicate 65536 0)) 1 1 0 0 = 0 := by
    show load_array_raw_siff (List.replicate 65536 0) 1 1
      (fun _ _ => 0) 0 0 = 0
    rw [load_raw_eq_registered_zero, load_raw_reg_apply, hcnt]
  refine ⟨?_, rfl, ?_, by decide⟩
  · have hred : sum_roi_flat ⟨[⟨1, 1, FrameData.raw
        (List.replicate 65536 0), 0, 0⟩], some (1, 1), 1⟩
        ⟨1, 1, fun _ _ => true⟩ [0] none =
        .ok [sum_mask_raw_siff (fun _ _ => true)
          (List.replicate 65536 0) 1 1] := rfl
    rw [hred, hmask]
  · rw [Finset.sum_range_one, Finset.sum_range_one]
    simp only [if_true]
    exact hload

/-- C3 counterexample: a raw 1 by 1 frame with a single photon whose
tau value 1 is outside a 1-bin histogram.  The histogram kernel drops
the photon (total 0) while the intensity kernel counts it (total 1),
so the claimed equality of totals fails. -/
theorem c3_counterexample :
    Finset.sum (Finset.range 1)
      (load_histogram_frame (FrameData.raw [1]) 1) = 0 ∧
    Finset.sum (Finset.range 1) (fun y =>
      Finset.sum (Finset.range 1) (fun x =>
        load_array_intensity (FrameData.raw [1]) 1 1 y x)) = 1 ∧
    (0 : ℕ) ≠ 1 := by
  refine ⟨by decide, by decide, by decide⟩

theorem countP_range_partition_id (l : List ℕ) (H : ℕ) :
    Finset.sum (Finset.range H) (fun t => l.countP (fun v => v == t)) =
      l.countP (fun v => decide (v < H)) :=
  countP_range_partition l (fun v => v) H

/-- C3 (amended): the histogram total equals the number of photons
whose tau lies inside the histogram range, so it equals the intensity
total exactly when no photon is dropped: for RAW frames when every
photon tau is below the bin count (and no pixel wraps the `u16`
accumulator); for COMPRESSED frames when every arrival-stream word is
below the bin count and the strip is well formed (the arrival stream
has one word per counted photon and the slab covers the frame). -/
theorem c3_histogram_total_eq_intensity_total
    (photons data stream : List ℕ) (nBins ydim xdim : ℕ)
    (hy : 0 < ydim) (hx : 0 < xdim)
    (hrange : ∀ p ∈ photons, photon_to_tau p < nBins)
    (hnw : ∀ y < ydim, ∀ x < xdim,
      rawCount photons (0, 0) ydim xdim y x < 65536)
    (hsrange : ∀ t ∈ stream, t < nBins)
    (hlen : stream.length = data.sum)
    (hdata : data.length = ydim * xdim) :
    Finset.sum (Finset.range nBins)
      (load_histogram_frame (FrameData.raw photons) nBins) =
      Finset.sum (Finset.range ydim) (fun y =>
        Finset.sum (Finset.range xdim) (fun x =>
          load_array_intensity (FrameData.raw photons) ydim xdim y x)) ∧
    Finset.sum (Finset.range nBins)
      (load_histogram_frame (FrameData.compressed data stream) nBins) =
      Finset.sum (Finset.range ydim) (fun y =>
        Finset.sum (Finset.range xdim) (fun x =>
          load_array_intensity (FrameData.compressed data stream)
            ydim xdim y x)) := by
  constructor
  · have hl : Finset.sum (Finset.range nBins)
        (load_histogram_frame (FrameData.raw photons) nBins) =
        photons.length := by
      have happ : ∀ t ∈ Finset.range nBins,
          load_histogram_frame (FrameData.raw photons) nBins t =
          photons.countP (fun p => photon_to_tau p == t) := by
        intro t ht
        simp only [Finset.mem_range] at ht
        show _load_histogram_uncompressed photons nBins (fun _ => 0) t = _
        rw [hist_uncompressed_apply, if_pos ht]
      rw [Finset.sum_congr rfl happ, countP_range_partition photons
        photon_to_tau nBins, List.countP_eq_length.mpr]
      intro p hp
      simp [hrange p hp]
    have hsum : sum_mask_raw_siff (fun _ _ => true) photons ydim xdim =
        photons.length := by
      rw [sum_mask_raw_eq, List.countP_eq_length.mpr]
      intro a _
      rfl
    have hg := sum_mask_raw_eq_masked_grid (fun _ _ => true) photons
      ydim xdim hy hx hnw
    have hr : Finset.sum (Finset.range ydim) (fun y =>
        Finset.sum (Finset.range xdim) (fun x =>
          load_array_intensity (FrameData.raw photons) ydim xdim y x)) =
        photons.length := by
      show Finset.sum (Finset.range ydim) (fun y =>
        Finset.sum (Finset.range xdim) (fun x =>
          load_array_raw_siff photons ydim xdim (fun _ _ => 0) y x)) = _
      rw [← hsum, hg]
      apply Finset.sum_congr rfl
      intro y _
      apply Finset.sum_congr rfl
      intro x _
      simp
    rw [hl, hr]
  · have hl : Finset.sum (Finset.range nBins)
        (load_histogram_frame (FrameData.compressed data stream) nBins) =
        data.sum := by
      have happ : ∀ t ∈ Finset.range nBins,
          load_histogram_frame (FrameData.compressed data stream) nBins t =
          stream.countP (fun v => v == t) := by
        intro t ht
        simp only [Finset.mem_range] at ht
        show _load_histogram_compressed stream nBins (fun _ => 0) t = _
        rw [hist_compressed_apply, if_pos ht]
      rw [Finset.sum_congr rfl happ, countP_range_partition_id,
        List.countP_eq_length.mpr]
      · exact hlen
      · intro t ht
        simp [hsrange t ht]
    have hr : Finset.sum (Finset.range ydim) (fun y =>
        Finset.sum (Finset.range xdim) (fun x =>
          load_array_intensity (FrameData.compressed data stream)
            ydim xdim y x)) = data.sum := by
      show Finset.sum (Finset.range ydim) (fun y =>
        Finset.sum (Finset.range xdim) (fun x =>
          (fun y2 x2 => data.getD (y2 * xdim + x2) 0) y x)) = _
      rw [← sum_flat_grid ydim xdim (fun y2 x2 =>
        data.getD (y2 * xdim + x2) 0)]
      have hterm : ∀ k ∈ Finset.range (ydim * xdim),
          (fun y2 x2 => data.getD (y2 * xdim + x2) 0)
            (k / xdim) (k % xdim) = data.getD k 0 := by
        intro k _
        show data.getD (k / xdim * xdim + k % xdim) 0 = _
        have hidx : k / xdim * xdim + k % xdim = k := by
          rw [Nat.mul_comm]
          exact Nat.div_add_mod k xdim
        rw [hidx]
      rw [Finset.sum_congr rfl hterm, sum_range_getD, ← hdata,
        List.take_length]
    rw [hl, hr]

/-- Witness for the amended C3: a raw frame with one in-range photon
and a compressed frame with slab `[2]` and stream `[0, 1]` on a 1 by 1
grid with 2 histogram bins. -/
theorem c3_histogram_total_eq_intensity_total_witness :
    Finset.sum (Finset.range 2)
      (load_histogram_frame (FrameData.raw [1]) 2) =
      Finset.sum (Finset.range 1) (fun y =>
        Finset.sum (Finset.range 1) (fun x =>
          load_array_intensity (FrameData.raw [1]) 1 1 y x)) ∧
    Finset.sum (Finset.range 2)
      (load_histogram_frame (FrameData.compressed [2] [0, 1]) 2) =
      Finset.sum (Finset.range 1) (fun y =>
        Finset.sum (Finset.range 1) (fun x =>
          load_array_intensity (FrameData.compressed [2] [0, 1])
            1 1 y x)) :=
  c3_histogram_total_eq_intensity_total [1] [2] [0, 1] 2 1 1
    (by decide) (by decide) (by decide)
    (fun y _ x _ =>
      Nat.lt_of_le_of_lt (List.countP_le_length _) (by norm_num))
    (by decide) (by decide) (by decide)

end Corrosiff
